import Mathlib

/-! # csvq session layer and command flags

A shallow embedding of `lib/query/session.go` (the stdin locker, the session
with its view cache and output routing, the I/O adapters), of
`UnescapeString` in `lib/cmd/static.go` and of the validating flag setters of
`lib/cmd/flags.go`.  Go values are modelled by plain data: a `string` is its
byte sequence, an `error` is `Option GoError` (`none` is `nil`), the 32-bit
counter of the locker is an `Int` reduced by `wrapInt32` after every
arithmetic step, and a method with a pointer receiver is a function returning
the new receiver next to its Go result.
-/

namespace Csvq

/-! ## Machine integers -/

/-- Two's complement reduction of an integer to the range of a Go `int32`. -/
def wrapInt32 (x : Int) : Int := (x + 2147483648) % 4294967296 - 2147483648

/-- The values a Go `int32` can hold. -/
def isInt32 (x : Int) : Prop := -2147483648 ≤ x ∧ x < 2147483648

instance (x : Int) : Decidable (isInt32 x) := by
  unfold isInt32; infer_instance

/-! ## Errors -/

/-- A Go `string`: a sequence of bytes. -/
abbrev GoString := List UInt8

/-- The type `parser.Identifier`, reduced to the field the session layer sets. -/
structure Identifier where
  Literal : String
  deriving DecidableEq, Repr

/-- The type `parser.Stdin`, reduced to its string form `expr.String()`. -/
structure Stdin where
  str : String
  deriving DecidableEq, Repr

/-- Modelled from the spec: `parser.TokenLiteral(parser.STDIN)`, the literal of
the stdin token (it is defined in the parser package); the spec calls
it the "stdin" resource identifier. -/
def stdinTokenLiteral : String := "stdin"

/-- The values of the interface `query.Error` that the session layer builds:
one constructor per `New...Error` function called in `session.go`. -/
inductive QueryError
  | FileLockTimeout (ident : Identifier)
  | StdinEmpty (expr : Stdin)
  | IOError (expr : Stdin) (msg : String)
  | DataParsing (expr : Stdin) (path : String) (msg : String)
  deriving DecidableEq, Repr

/-- A non-nil Go `error`: either a plain `errors.New` value (or any other
error that does not implement `query.Error`), or a `query.Error`. -/
inductive GoError
  | plain (msg : String)
  | domain (e : QueryError)
  deriving DecidableEq, Repr

/-- The two non-nil values of `ctx.Err()`. -/
inductive ContextError
  | Canceled
  | DeadlineExceeded
  deriving DecidableEq, Repr

def NewFileLockTimeoutError (ident : Identifier) : GoError :=
  GoError.domain (QueryError.FileLockTimeout ident)

/-- Modelled from the spec: `ConvertContextError`, the helper that turns the
error of an already fired context into the error `lockContext` returns (its
body lies outside `session.go`).  Spec 4.1: "every blocking call first checks
whether the deadline-signal has already fired (immediate LockTimeout if so)",
and "On deadline, fails with LockTimeout, attributed to the "stdin" resource
identifier". -/
def ConvertContextError (_e : ContextError) : GoError :=
  NewFileLockTimeoutError { Literal := stdinTokenLiteral }

/-! ## StdinLocker -/

/-- The struct `StdinLocker`.  The mutex `mtx` makes every method body one
atomic step; it carries no other state. -/
structure StdinLocker where
  locked : Bool
  rlockCnt : Int
  deriving DecidableEq, Repr

def NewStdinLocker : StdinLocker := { locked := false, rlockCnt := 0 }

namespace StdinLocker

def Unlock (cl : StdinLocker) : Option GoError × StdinLocker :=
  if cl.locked then
    (none, { cl with locked := false })
  else
    (some (GoError.plain "locker is unlocked"), cl)

def RUnlock (cl : StdinLocker) : Option GoError × StdinLocker :=
  if 0 < cl.rlockCnt then
    (none, { cl with rlockCnt := wrapInt32 (cl.rlockCnt - 1) })
  else
    (some (GoError.plain "locker is unlocked"), cl)

def tryLock (cl : StdinLocker) : Bool × StdinLocker :=
  if cl.locked || decide (0 < cl.rlockCnt) then
    (false, cl)
  else
    (true, { cl with locked := true })

def tryRLock (cl : StdinLocker) : Bool × StdinLocker :=
  if cl.locked then
    (false, cl)
  else
    (true, { cl with rlockCnt := wrapInt32 (cl.rlockCnt + 1) })

end StdinLocker

/-- One atomic step on the locker: an acquisition attempt or a release. -/
inductive LockerOp
  | tryLock
  | tryRLock
  | Unlock
  | RUnlock
  deriving DecidableEq, Repr

/-- The locker after one step (the Go result of the step is dropped). -/
def LockerOp.apply : LockerOp → StdinLocker → StdinLocker
  | LockerOp.tryLock, cl => cl.tryLock.2
  | LockerOp.tryRLock, cl => cl.tryRLock.2
  | LockerOp.Unlock, cl => cl.Unlock.2
  | LockerOp.RUnlock, cl => cl.RUnlock.2

/-- The locker after a finite sequence of steps, first step first. -/
def runOps : List LockerOp → StdinLocker → StdinLocker
  | [], cl => cl
  | op :: ops, cl => runOps ops (op.apply cl)

/-- One pass through the `select` of `lockContext` after a refused attempt:
the steps other parties take on the locker while the caller waits, and whether
`ctx.Done()` is the case that fires (otherwise the retry timer does). -/
structure WaitRound where
  others : List LockerOp
  done : Bool
  deriving DecidableEq, Repr

/-- The loop of `lockContext`.  It returns `none` when the schedule of waits
is used up while the caller is still blocked. -/
def lockLoop (fn : StdinLocker → Bool × StdinLocker) :
    List WaitRound → StdinLocker → Option (Option GoError × StdinLocker)
  | waits, cl =>
    if (fn cl).1 then
      some (none, (fn cl).2)
    else
      match waits with
      | [] => none
      | w :: rest =>
        if w.done then
          some (some (NewFileLockTimeoutError { Literal := stdinTokenLiteral }),
            runOps w.others (fn cl).2)
        else
          lockLoop fn rest (runOps w.others (fn cl).2)

/-- The method `lockContext`: `entry` is the value of `ctx.Err()` on entry. -/
def StdinLocker.lockContext (cl : StdinLocker) (entry : Option ContextError)
    (waits : List WaitRound) (fn : StdinLocker → Bool × StdinLocker) :
    Option (Option GoError × StdinLocker) :=
  match entry with
  | some e => some (some (ConvertContextError e), cl)
  | none => lockLoop fn waits cl

def StdinLocker.LockContext (cl : StdinLocker) (entry : Option ContextError)
    (waits : List WaitRound) : Option (Option GoError × StdinLocker) :=
  cl.lockContext entry waits StdinLocker.tryLock

def StdinLocker.RLockContext (cl : StdinLocker) (entry : Option ContextError)
    (waits : List WaitRound) : Option (Option GoError × StdinLocker) :=
  cl.lockContext entry waits StdinLocker.tryRLock

/-- The schedule of `context.Background()`: `Done` never fires. -/
def backgroundWaits (others : List (List LockerOp)) : List WaitRound :=
  others.map fun o => { others := o, done := false }

def StdinLocker.Lock (cl : StdinLocker) (others : List (List LockerOp)) :
    Option (Option GoError × StdinLocker) :=
  cl.LockContext none (backgroundWaits others)

def StdinLocker.RLock (cl : StdinLocker) (others : List (List LockerOp)) :
    Option (Option GoError × StdinLocker) :=
  cl.RLockContext none (backgroundWaits others)

/-! ## Command flags (`lib/cmd/flags.go`) -/

/-- The type `cmd.Encoding`. -/
inductive Encoding
  | UTF8
  | SJIS
  deriving DecidableEq, Repr

/-- The type `cmd.Format`. -/
inductive Format
  | TEXT
  | CSV
  | TSV
  | JSON
  deriving DecidableEq, Repr

/-- The struct `cmd.Flags`; `Delimiter` is a `rune` and `LineBreak` a string
type. -/
structure Flags where
  Delimiter : Int
  Encoding : Csvq.Encoding
  Repository : GoString
  NoHeader : Bool
  WithoutNull : Bool
  WriteEncoding : Csvq.Encoding
  LineBreak : GoString
  OutFile : GoString
  Format : Csvq.Format
  WithoutHeader : Bool
  Location : GoString
  Now : GoString
  deriving DecidableEq, Repr

/-! ## I/O handles -/

/-- A byte source as `ioutil.ReadAll` meets it: the bytes it still yields, the
error other than EOF that ends the reading (if any), and how many times it has
been read to its end. -/
structure ByteStream where
  pending : GoString
  failure : Option String
  reads : Nat
  deriving DecidableEq, Repr

/-- The result of a successful `fp.Stat()`: the mode bits and the size. -/
structure FileStat where
  Mode : Nat
  Size : Int
  deriving DecidableEq, Repr

/-- An `*os.File`: what `Stat` returns (`none` when it returns an error) and
the bytes behind the descriptor. -/
structure OsFile where
  stat : Option FileStat
  stream : ByteStream
  deriving DecidableEq, Repr

/-- A non-nil `io.ReadCloser`, split by the type assertion `r.(*os.File)`. -/
inductive ReadCloser
  | file (fp : OsFile)
  | other (rd : ByteStream)
  deriving DecidableEq, Repr

/-- The bit `os.ModeNamedPipe` of a file mode. -/
def ModeNamedPipe : Nat := 2 ^ 25

def isReadableFromPipeOrRedirection (fp : OsFile) : Bool :=
  match fp.stat with
  | some fi => decide (fi.Mode &&& ModeNamedPipe ≠ 0) || decide (0 < fi.Size)
  | none => false

def ByteStream.ReadAll (rd : ByteStream) : (GoString × Option GoError) × ByteStream :=
  ((rd.pending, rd.failure.map GoError.plain),
    { rd with pending := [], reads := rd.reads + 1 })

/-- The call `ioutil.ReadAll(r)` on a non-nil reader. -/
def ReadCloser.ReadAll : ReadCloser → (GoString × Option GoError) × ReadCloser
  | ReadCloser.file fp =>
    (fp.stream.ReadAll.1, ReadCloser.file { fp with stream := fp.stream.ReadAll.2 })
  | ReadCloser.other rd => (rd.ReadAll.1, ReadCloser.other rd.ReadAll.2)

/-- The stream behind a reader. -/
def ReadCloser.stream : ReadCloser → ByteStream
  | ReadCloser.file fp => fp.stream
  | ReadCloser.other rd => rd

/-- A non-nil `io.Writer` or `io.WriteCloser`: the bytes handed to its `Write`
so far and the error its `Write` reports. -/
structure WriteCloser where
  written : GoString
  failure : Option GoError
  deriving DecidableEq, Repr

def WriteCloser.Write (w : WriteCloser) (p : GoString) :
    (Int × Option GoError) × WriteCloser :=
  ((if w.failure.isNone then (p.length : Int) else 0, w.failure),
    { w with written := w.written ++ p })

/-- A call received by a terminal. -/
inductive TerminalCall
  | Write (s : GoString)
  | WriteError (s : GoString)
  deriving DecidableEq, Repr

/-- A non-nil `VirtualTerminal` (the interface is declared outside
`session.go`): the calls it has received, and the errors its two write
methods report. -/
structure VirtualTerminal where
  calls : List TerminalCall
  writeFailure : Option GoError
  writeErrorFailure : Option GoError
  deriving DecidableEq, Repr

def VirtualTerminal.Write (t : VirtualTerminal) (s : GoString) :
    Option GoError × VirtualTerminal :=
  (t.writeFailure, { t with calls := t.calls ++ [TerminalCall.Write s] })

def VirtualTerminal.WriteError (t : VirtualTerminal) (s : GoString) :
    Option GoError × VirtualTerminal :=
  (t.writeErrorFailure, { t with calls := t.calls ++ [TerminalCall.WriteError s] })

/-! ## Views and the view cache -/

/-- The struct `FileInfo`, reduced to the field the session layer reads. -/
structure FileInfo where
  Path : String
  deriving DecidableEq, Repr

/-- The struct `View`: its file information and its records. -/
structure View where
  FileInfo : Csvq.FileInfo
  records : List (List GoString)
  deriving DecidableEq, Repr

/-- Modelled from the spec: `ViewMap`, "a mapping from a resolved
identifier/path to a previously parsed view" with "at most one entry per
resolved path" (the type and its methods lie outside `session.go`). -/
structure ViewMap where
  entries : List (String × View)
  deriving DecidableEq, Repr

/-- Modelled from the spec: `NewViewMap`, "an empty view cache". -/
def NewViewMap : ViewMap := { entries := [] }

/-- Modelled from the spec: `ViewMap.Exists`, "the cache already holds an
entry for this reference". -/
def ViewMap.Exists (m : ViewMap) (key : String) : Bool :=
  (m.entries.lookup key).isSome

/-- Modelled from the spec: `ViewMap.Store`, "store the resulting view in the
cache keyed by its resolved path", keeping at most one entry per path. -/
def ViewMap.Store (m : ViewMap) (key : String) (view : View) : ViewMap :=
  { entries := (key, view) :: m.entries.filter fun e => e.1 != key }

/-- Modelled from the spec: the error `ViewMap.Get` returns for a reference
that has no entry (the spec names no error for this case). -/
def tableNotLoadedError (ident : Identifier) : GoError :=
  GoError.plain ("table not loaded: " ++ ident.Literal)

/-- Modelled from the spec: `ViewMap.Get`, which returns the cached view of a
reference. -/
def ViewMap.Get (m : ViewMap) (ident : Identifier) : Option View × Option GoError :=
  match m.entries.lookup ident.Literal with
  | some view => (some view, none)
  | none => (none, some (tableNotLoadedError ident))

/-- Modelled from the spec: `ViewMap.Clean`, which "clears the entire view
cache": "never partially invalidated - replacement clears everything". -/
def ViewMap.Clean (_m : ViewMap) : Option GoError × ViewMap :=
  (none, { entries := [] })

/-- The external parsing collaborator `loadViewFromFile`, called with the
flags, the bytes read, the file information, the null-handling flag and the
reference. -/
abbrev ViewLoader := Flags → GoString → FileInfo → Bool → Stdin → Except GoError View

def NewStdinEmptyError (expr : Stdin) : GoError :=
  GoError.domain (QueryError.StdinEmpty expr)

def NewIOError (expr : Stdin) (msg : String) : GoError :=
  GoError.domain (QueryError.IOError expr msg)

def NewDataParsingError (expr : Stdin) (path : String) (msg : String) : GoError :=
  GoError.domain (QueryError.DataParsing expr path msg)

/-- The method `err.Error()` of a plain error; a `query.Error` renders itself
by a method defined outside `session.go`, so its message is left abstract as
the empty text. -/
def GoError.Error : GoError → String
  | GoError.plain msg => msg
  | GoError.domain _ => ""

/-! ## Session -/

/-- The struct `Session`.  The mutex `mtx` makes the output methods atomic and
carries no other state. -/
structure Session where
  screenFd : Nat
  stdin : Option ReadCloser
  stdout : Option WriteCloser
  stderr : Option WriteCloser
  outFile : Option WriteCloser
  terminal : Option VirtualTerminal
  CanReadStdin : Bool
  stdinViewMap : ViewMap
  stdinLocker : StdinLocker
  deriving DecidableEq, Repr

/-- The constructor `NewSession`, with the process handles `os.Stdin`,
`os.Stdout`, `os.Stderr` and the descriptor of the screen as arguments. -/
def NewSession (screenFd : Nat) (osStdin : OsFile) (osStdout osStderr : WriteCloser) :
    Session :=
  { screenFd := screenFd
    stdin := some (ReadCloser.file osStdin)
    stdout := some osStdout
    stderr := some osStderr
    outFile := none
    terminal := none
    CanReadStdin := isReadableFromPipeOrRedirection osStdin
    stdinViewMap := NewViewMap
    stdinLocker := NewStdinLocker }

namespace Session

/-- The flag computed by `SetStdinContext` for the new stream `r`. -/
def canReadFrom (r : Option ReadCloser) : Bool :=
  match r with
  | none => false
  | some (ReadCloser.file fp) => isReadableFromPipeOrRedirection fp
  | some (ReadCloser.other _) => true

/-- The method `SetStdinContext`; `entry` and `waits` describe the context as
in `lockContext`.  The result is `none` while the call is still blocked. -/
def SetStdinContext (sess : Session) (entry : Option ContextError)
    (waits : List WaitRound) (r : Option ReadCloser) :
    Option (Option GoError × Session) :=
  match sess.stdinLocker.LockContext entry waits with
  | none => none
  | some (some err, cl) => some (some err, { sess with stdinLocker := cl })
  | some (none, cl) =>
    some ((cl.Unlock).1,
      { sess with
        CanReadStdin := canReadFrom r
        stdin := r
        stdinViewMap := (sess.stdinViewMap.Clean).2
        stdinLocker := (cl.Unlock).2 })

def SetStdin (sess : Session) (others : List (List LockerOp)) (r : Option ReadCloser) :
    Option (Option GoError × Session) :=
  sess.SetStdinContext none (backgroundWaits others) r

def SetStdout (sess : Session) (w : Option WriteCloser) : Session :=
  { sess with stdout := w }

def SetStderr (sess : Session) (w : Option WriteCloser) : Session :=
  { sess with stderr := w }

def SetOutFile (sess : Session) (w : Option WriteCloser) : Session :=
  { sess with outFile := w }

def SetTerminal (sess : Session) (t : Option VirtualTerminal) : Session :=
  { sess with terminal := t }

/-- The method `GetStdinView`.  The result is `none` when the call panics:
`ioutil.ReadAll` on a nil stream. -/
def GetStdinView (sess : Session) (load : ViewLoader) (flags : Flags)
    (fileInfo : FileInfo) (expr : Stdin) :
    Option ((Option View × Option GoError) × Session) :=
  if !sess.stdinViewMap.Exists expr.str then
    if !sess.CanReadStdin then
      some ((none, some (NewStdinEmptyError expr)), sess)
    else
      match sess.stdin with
      | none => none
      | some r =>
        let sess1 := { sess with stdin := some r.ReadAll.2 }
        match r.ReadAll.1 with
        | (_, some err) => some ((none, some (NewIOError expr err.Error)), sess1)
        | (b, none) =>
          match load flags b fileInfo flags.WithoutNull expr with
          | Except.error err =>
            match err with
            | GoError.domain _ => some ((none, some err), sess1)
            | GoError.plain _ =>
              some ((none, some (NewDataParsingError expr fileInfo.Path err.Error)), sess1)
          | Except.ok view =>
            let sess2 := { sess1 with
              stdinViewMap := sess1.stdinViewMap.Store view.FileInfo.Path view }
            some (sess2.stdinViewMap.Get { Literal := expr.str }, sess2)
  else
    some (sess.stdinViewMap.Get { Literal := expr.str }, sess)

def updateStdinView (sess : Session) (view : View) : Session :=
  { sess with stdinViewMap := sess.stdinViewMap.Store view.FileInfo.Path view }

def WriteToStdout (sess : Session) (s : GoString) : Option GoError × Session :=
  match sess.terminal with
  | some t => ((t.Write s).1, { sess with terminal := some (t.Write s).2 })
  | none =>
    match sess.stdout with
    | some w => ((w.Write s).1.2, { sess with stdout := some (w.Write s).2 })
    | none => (none, sess)

def WriteToStdoutWithLineBreak (sess : Session) (s : GoString) : Option GoError × Session :=
  if decide (0 < s.length) && s.getD (s.length - 1) 0 != 10 then
    sess.WriteToStdout (s ++ [10])
  else
    sess.WriteToStdout s

def WriteToStderr (sess : Session) (s : GoString) : Option GoError × Session :=
  match sess.terminal with
  | some t => ((t.WriteError s).1, { sess with terminal := some (t.WriteError s).2 })
  | none =>
    match sess.stderr with
    | some w => ((w.Write s).1.2, { sess with stderr := some (w.Write s).2 })
    | none => (none, sess)

def WriteToStderrWithLineBreak (sess : Session) (s : GoString) : Option GoError × Session :=
  if decide (0 < s.length) && s.getD (s.length - 1) 0 != 10 then
    sess.WriteToStderr (s ++ [10])
  else
    sess.WriteToStderr s

end Session

/-! ## Scenario drivers -/

/-- The steps other parties take during the given waits, in order. -/
def othersSteps : List WaitRound → List LockerOp
  | [] => []
  | w :: rest => w.others ++ othersSteps rest

/-- Run `n` consecutive `RLock` calls, none of which may wait: the result is
`none` as soon as one of them blocks or fails. -/
def acquireShared : Nat → StdinLocker → Option StdinLocker
  | 0, cl => some cl
  | n + 1, cl =>
    match cl.RLock [] with
    | some (none, cl') => acquireShared n cl'
    | _ => none

/-- Run `n` consecutive `RUnlock` calls: the result is `none` as soon as one of
them returns an error. -/
def releaseShared : Nat → StdinLocker → Option StdinLocker
  | 0, cl => some cl
  | n + 1, cl =>
    match cl.RUnlock with
    | (none, cl') => releaseShared n cl'
    | _ => none

/-- A sample session: no terminal, no out-file, no stdin, and
empty in-memory buffers as the raw stdout and stderr streams. -/
def bufferSession : Session :=
  { screenFd := 0
    stdin := none
    stdout := some { written := [], failure := none }
    stderr := some { written := [], failure := none }
    outFile := none
    terminal := none
    CanReadStdin := false
    stdinViewMap := NewViewMap
    stdinLocker := NewStdinLocker }

/-! ## Session accessors and I/O adapters -/

namespace Session

def ScreenFd (sess : Session) : Nat := sess.screenFd

def Stdin (sess : Session) : Option ReadCloser := sess.stdin

def Stdout (sess : Session) : Option WriteCloser := sess.stdout

def Stderr (sess : Session) : Option WriteCloser := sess.stderr

def OutFile (sess : Session) : Option WriteCloser := sess.outFile

def Terminal (sess : Session) : Option VirtualTerminal := sess.terminal

end Session

/-- The struct `Discard`: it has no field. -/
structure Discard where
  deriving DecidableEq, Repr

def NewDiscard : Discard := {}

def Discard.Write (_d : Discard) (p : GoString) : Int × Option GoError :=
  ((p.length : Int), none)

def Discard.Close (_d : Discard) : Option GoError := none

/-- A `bytes.Buffer` of the Go library: the bytes written so far and the read
offset; its content is what lies behind the offset. -/
structure Buffer where
  buf : GoString
  off : Nat
  deriving DecidableEq, Repr

/-- The method `Write` of `bytes.Buffer`: it appends `p` and reports all of
it as written. -/
def Buffer.Write (b : Buffer) (p : GoString) : (Int × Option GoError) × Buffer :=
  (((p.length : Int), none), { b with buf := b.buf ++ p })

/-- The method `Bytes` of `bytes.Buffer`: the unread part of the buffer. -/
def Buffer.Bytes (b : Buffer) : GoString := b.buf.drop b.off

/-- The struct `Output`, which embeds a `bytes.Buffer`. -/
structure Output where
  Buffer : Csvq.Buffer
  deriving DecidableEq, Repr

def NewOutput : Output := { Buffer := { buf := [], off := 0 } }

/-- The method `Write` that `Output` takes over from the embedded buffer. -/
def Output.Write (w : Output) (p : GoString) : (Int × Option GoError) × Output :=
  ((w.Buffer.Write p).1, { w with Buffer := (w.Buffer.Write p).2 })

def Output.Close (w : Output) : Option GoError × Output := (none, w)

/-! ## String functions of the Go library -/

/-- The scan behind `strings.Replace(s, old, new, -1)` for a non-empty `old`:
`skip` counts the bytes of a matched occurrence that are still to be passed
over; outside an occurrence, an occurrence of `old` that starts here is
replaced by `new`, and any other byte is copied. -/
def replaceFrom (old new : GoString) : Nat → GoString → GoString
  | _, [] => []
  | skip + 1, _ :: rest => replaceFrom old new skip rest
  | 0, c :: rest =>
    if old.isPrefixOf (c :: rest) then
      new ++ replaceFrom old new (old.length - 1) rest
    else
      c :: replaceFrom old new 0 rest

/-- The call `strings.Replace(s, old, new, -1)` for a non-empty `old`: every
occurrence of `old`, found from left to right without overlap, becomes `new`. -/
def stringsReplace (s old new : GoString) : GoString := replaceFrom old new 0 s

/-- The function `UnescapeString` of `lib/cmd/static.go`: nine replacements,
one after the other, of a backslash (byte 92) followed by `a`, `b`, `f`, `n`,
`r`, `t`, `v`, a double quote or a backslash. -/
def UnescapeString (s : GoString) : GoString :=
  let s := stringsReplace s [92, 97] [7]
  let s := stringsReplace s [92, 98] [8]
  let s := stringsReplace s [92, 102] [12]
  let s := stringsReplace s [92, 110] [10]
  let s := stringsReplace s [92, 114] [13]
  let s := stringsReplace s [92, 116] [9]
  let s := stringsReplace s [92, 118] [11]
  let s := stringsReplace s [92, 34] [34]
  let s := stringsReplace s [92, 92] [92]
  s

/-- The character an escape letter denotes: the byte that stands for a
backslash followed by `d`, when that pair is an escape sequence. -/
def escapeValue (d : UInt8) : Option UInt8 :=
  if d = 97 then some 7
  else if d = 98 then some 8
  else if d = 102 then some 12
  else if d = 110 then some 10
  else if d = 114 then some 13
  else if d = 116 then some 9
  else if d = 118 then some 11
  else if d = 34 then some 34
  else if d = 92 then some 92
  else none

/-- The single left-to-right scan of the specification of `UnescapeString`:
a backslash followed by an escape letter becomes the character the pair
denotes and the scan goes on behind the pair; every other byte is copied. -/
def unescapeScan : GoString → GoString
  | [] => []
  | [c] => [c]
  | c :: d :: rest =>
    if c = 92 then
      match escapeValue d with
      | some v => v :: unescapeScan rest
      | none => c :: unescapeScan (d :: rest)
    else
      c :: unescapeScan (d :: rest)

/-- The upper case of one ASCII byte: the letters `a` to `z` are raised. -/
def upperByte (c : UInt8) : UInt8 :=
  if 97 ≤ c ∧ c ≤ 122 then c - 32 else c

/-- The function `strings.ToUpper` as a comparison with an ASCII text sees it.
The ASCII letters are raised; the two letters outside ASCII whose upper case
is an ASCII letter, U+017F (bytes `C5 BF`, upper case `S`) and U+0131 (bytes
`C4 B1`, upper case `I`), are replaced by it; every other byte is kept, where
Go stays outside ASCII (it maps the letter inside the non-ASCII range, or
writes U+FFFD for a byte that is not UTF-8).  So the result equals an ASCII
text exactly when the result of Go does. -/
def stringsToUpper : GoString → GoString
  | [] => []
  | [c] => [upperByte c]
  | c :: d :: rest =>
    if c = 197 ∧ d = 191 then
      83 :: stringsToUpper rest
    else if c = 196 ∧ d = 177 then
      73 :: stringsToUpper rest
    else
      upperByte c :: stringsToUpper (d :: rest)

/-- The loop of `path.Ext`, run over the reversed path: `acc` is the part of
the path already passed.  It stops with no extension at a slash (byte 47) and
returns the text from the first dot (byte 46) it meets. -/
def extFromEnd : GoString → GoString → GoString
  | [], _ => []
  | c :: rest, acc =>
    if c = 47 then []
    else if c = 46 then c :: acc
    else extFromEnd rest (c :: acc)

/-- The function `path.Ext`: the text from the last dot of the last element of
the path, or the empty text. -/
def pathExt (path : GoString) : GoString := extFromEnd path.reverse []

/-- Whether `b` is a continuation byte of UTF-8. -/
def isContinuation (b : UInt8) : Bool :=
  decide (128 ≤ b.toNat) && decide (b.toNat ≤ 191)

/-- The first rune of a text and its width in bytes, as the conversion
`[]rune(s)` decodes it: a well-formed UTF-8 sequence of one to four bytes
(shortest form, no surrogate, at most U+10FFFF) gives its code point, and
anything else gives U+FFFD (65533) with width one. -/
def decodeRune : GoString → Int × Nat
  | [] => (65533, 0)
  | b0 :: rest =>
    if b0.toNat < 128 then
      ((b0.toNat : Int), 1)
    else if 194 ≤ b0.toNat ∧ b0.toNat ≤ 223 then
      match rest with
      | b1 :: _ =>
        if isContinuation b1 then
          ((((b0.toNat - 192) * 64 + (b1.toNat - 128) : Nat) : Int), 2)
        else (65533, 1)
      | _ => (65533, 1)
    else if 224 ≤ b0.toNat ∧ b0.toNat ≤ 239 then
      match rest with
      | b1 :: b2 :: _ =>
        if (if b0.toNat = 224 then 160 else 128) ≤ b1.toNat ∧
            b1.toNat ≤ (if b0.toNat = 237 then 159 else 191) ∧
            isContinuation b2 = true then
          (((((b0.toNat - 224) * 64 + (b1.toNat - 128)) * 64 + (b2.toNat - 128) : Nat) : Int), 3)
        else (65533, 1)
      | _ => (65533, 1)
    else if 240 ≤ b0.toNat ∧ b0.toNat ≤ 244 then
      match rest with
      | b1 :: b2 :: b3 :: _ =>
        if (if b0.toNat = 240 then 144 else 128) ≤ b1.toNat ∧
            b1.toNat ≤ (if b0.toNat = 244 then 143 else 191) ∧
            isContinuation b2 = true ∧ isContinuation b3 = true then
          ((((((b0.toNat - 240) * 64 + (b1.toNat - 128)) * 64 + (b2.toNat - 128)) * 64 +
            (b3.toNat - 128) : Nat) : Int), 4)
        else (65533, 1)
      | _ => (65533, 1)
    else (65533, 1)

/-- The runes of a text from a position on: `skip` counts the bytes of the
rune just decoded that are still to be passed over. -/
def runesFrom : Nat → GoString → List Int
  | _, [] => []
  | skip + 1, _ :: rest => runesFrom skip rest
  | 0, c :: rest =>
    (decodeRune (c :: rest)).1 :: runesFrom ((decodeRune (c :: rest)).2 - 1) rest

/-- The conversion `[]rune(s)`. -/
def toRunes (s : GoString) : List Int := runesFrom 0 s

/-! ## Flag setters (`lib/cmd/flags.go`) -/

/-- The constant `UNDEF`. -/
def UNDEF : Int := -1

/-- The value `GetFlags` installs on its first call.  The setters below work
on this one process-wide value: they take it and return it next to their Go
result. -/
def initialFlags : Flags :=
  { Delimiter := UNDEF
    Encoding := Encoding.UTF8
    Repository := [46]
    NoHeader := false
    WithoutNull := false
    WriteEncoding := Encoding.UTF8
    LineBreak := [10]
    OutFile := []
    Format := Format.TEXT
    WithoutHeader := false
    Location := [76, 111, 99, 97, 108]
    Now := [] }

def SetDelimiter (f : Flags) (s : GoString) : Option GoError × Flags :=
  if s.length < 1 then
    (none, f)
  else if 1 < (toRunes s).length then
    (some (GoError.plain "delimiter must be 1 character"), f)
  else
    (none, { f with Delimiter := (toRunes s).getD 0 0 })

/-- The function `ParseEncoding`; the texts compared are `UTF8` and `SJIS`. -/
def ParseEncoding (s : GoString) : Encoding × Option GoError :=
  if s.length < 1 then
    (Encoding.UTF8, none)
  else if stringsToUpper s = [85, 84, 70, 56] then
    (Encoding.UTF8, none)
  else if stringsToUpper s = [83, 74, 73, 83] then
    (Encoding.SJIS, none)
  else
    (Encoding.UTF8, some (GoError.plain "encoding must be one of utf8|sjis"))

def SetEncoding (f : Flags) (s : GoString) : Option GoError × Flags :=
  match ParseEncoding s with
  | (_, some err) => (some err, f)
  | (encoding, none) => (none, { f with Encoding := encoding })

def SetNoHeader (f : Flags) (b : Bool) : Option GoError × Flags :=
  (none, { f with NoHeader := b })

def SetWithoutNull (f : Flags) (b : Bool) : Option GoError × Flags :=
  (none, { f with WithoutNull := b })

def SetWriteEncoding (f : Flags) (s : GoString) : Option GoError × Flags :=
  match ParseEncoding s with
  | (_, some err) => (some err, f)
  | (encoding, none) => (none, { f with WriteEncoding := encoding })

/-- The function `SetLineBreak`; the texts compared are `CRLF`, `CR` and
`LF`, and the values stored are the constants `CRLF`, `CR` and `LF`. -/
def SetLineBreak (f : Flags) (s : GoString) : Option GoError × Flags :=
  if s.length < 1 then
    (none, f)
  else if stringsToUpper s = [67, 82, 76, 70] then
    (none, { f with LineBreak := [13, 10] })
  else if stringsToUpper s = [67, 82] then
    (none, { f with LineBreak := [13] })
  else if stringsToUpper s = [76, 70] then
    (none, { f with LineBreak := [10] })
  else
    (some (GoError.plain "line-break must be one of crlf|lf|cr"), f)

/-- The function `SetFormat`; the texts compared are the empty text, `CSV`,
`TSV`, `JSON` and `TEXT`, and for the extension `.CSV`, `.TSV` and `.JSON`. -/
def SetFormat (f : Flags) (s : GoString) : Option GoError × Flags :=
  if stringsToUpper s = [] then
    if stringsToUpper (pathExt f.OutFile) = [46, 67, 83, 86] then
      (none, { f with Format := Format.CSV })
    else if stringsToUpper (pathExt f.OutFile) = [46, 84, 83, 86] then
      (none, { f with Format := Format.TSV })
    else if stringsToUpper (pathExt f.OutFile) = [46, 74, 83, 79, 78] then
      (none, { f with Format := Format.JSON })
    else
      (none, f)
  else if stringsToUpper s = [67, 83, 86] then
    (none, { f with Format := Format.CSV })
  else if stringsToUpper s = [84, 83, 86] then
    (none, { f with Format := Format.TSV })
  else if stringsToUpper s = [74, 83, 79, 78] then
    (none, { f with Format := Format.JSON })
  else if stringsToUpper s = [84, 69, 88, 84] then
    (none, { f with Format := Format.TEXT })
  else
    (some (GoError.plain "format must be one of csv|tsv|json|text"), f)

def SetWithoutHeader (f : Flags) (b : Bool) : Option GoError × Flags :=
  (none, { f with WithoutHeader := b })

/-! ## The words of the specification -/

/-- Whether `s` is a case-insensitive spelling of `word` (a word given in
capital letters) in the plain sense: byte for byte, each byte of `s` is the
byte of the word or, for a capital letter, its small letter (`u + 32`). -/
def plainVariant : GoString → GoString → Bool
  | [], [] => true
  | u :: word, c :: s =>
    (c == u || (decide (65 ≤ u ∧ u ≤ 90) && c == u + 32)) && plainVariant word s
  | _, _ => false

/-- The ways to write the ASCII byte `u` of a word that the setters accept,
which compare after `strings.ToUpper`: the byte itself, for a capital letter
also the small letter (`u + 32`), and beyond the plain case variants the
letters outside ASCII whose upper case it is: U+017F (bytes `C5 BF`) for `S`
and U+0131 (bytes `C4 B1`) for `I`. -/
def letterSpellings (u : UInt8) : List GoString :=
  [[u]] ++ (if 65 ≤ u ∧ u ≤ 90 then [[u + 32]] else []) ++
    (if u = 83 then [[197, 191]] else []) ++ (if u = 73 then [[196, 177]] else [])

/-- Whether `s` is a spelling of `word` (a word given in capital letters) that
the setters accept: `s` is made of one of the `letterSpellings` of each byte
of the word, in order, and nothing else.  It is wider than `plainVariant` by
the two letters outside ASCII. -/
def spellsWord : GoString → GoString → Bool
  | [], s => s.isEmpty
  | u :: word, s =>
    (letterSpellings u).any fun sp => sp.isPrefixOf s && spellsWord word (s.drop sp.length)

/-- An ASCII byte that is not a small letter: the bytes of the words the flag
setters compare with. -/
def isUpperStable (u : UInt8) : Prop := u.toNat < 128 ∧ ¬ (97 ≤ u.toNat ∧ u.toNat ≤ 122)

instance (u : UInt8) : Decidable (isUpperStable u) := by
  unfold isUpperStable; infer_instance

/-- A Unicode scalar value: a code point that is not a surrogate. -/
def isScalar (c : Int) : Prop := (0 ≤ c ∧ c < 55296) ∨ (57344 ≤ c ∧ c < 1114112)

instance (c : Int) : Decidable (isScalar c) := by
  unfold isScalar; infer_instance

/-- The UTF-8 form of one code point: one to four bytes. -/
def encodeRune (c : Int) : GoString :=
  if c.toNat < 128 then
    [UInt8.ofNat c.toNat]
  else if c.toNat < 2048 then
    [UInt8.ofNat (192 + c.toNat / 64), UInt8.ofNat (128 + c.toNat % 64)]
  else if c.toNat < 65536 then
    [UInt8.ofNat (224 + c.toNat / 4096), UInt8.ofNat (128 + c.toNat / 64 % 64),
      UInt8.ofNat (128 + c.toNat % 64)]
  else
    [UInt8.ofNat (240 + c.toNat / 262144), UInt8.ofNat (128 + c.toNat / 4096 % 64),
      UInt8.ofNat (128 + c.toNat / 64 % 64), UInt8.ofNat (128 + c.toNat % 64)]

/-- The text made of the given code points, in UTF-8. -/
def utf8Text : List Int → GoString
  | [] => []
  | c :: cs => encodeRune c ++ utf8Text cs

/-- A sample session with piped input: `bufferSession` with the bytes of
`a,b`, newline, `1,2`, newline waiting on a stdin stream that is not a file. -/
def pipedSession : Session :=
  { bufferSession with
    CanReadStdin := true
    stdin := some (ReadCloser.other
      { pending := [97, 44, 98, 10, 49, 44, 50, 10], failure := none, reads := 0 }) }

/-- A sample parsing collaborator: it succeeds on every input, with an empty
view filed under the path `data.csv`. -/
def sampleLoader : ViewLoader :=
  fun _ _ _ _ _ => Except.ok { FileInfo := { Path := "data.csv" }, records := [] }

/-! ## Theorems: StdinLocker -/

theorem wrapInt32_of_isInt32 {x : Int} (h : isInt32 x) : wrapInt32 x = x := by
  unfold isInt32 at h
  unfold wrapInt32
  omega

theorem isInt32_wrapInt32 (x : Int) : isInt32 (wrapInt32 x) := by
  unfold isInt32 wrapInt32
  omega

/-- The exclusion invariant is kept by every step. -/
theorem LockerOp.apply_exclusion (op : LockerOp) (cl : StdinLocker)
    (h : cl.locked = true → cl.rlockCnt ≤ 0) :
    (op.apply cl).locked = true → (op.apply cl).rlockCnt ≤ 0 := by
  cases op <;>
    simp only [LockerOp.apply, StdinLocker.tryLock, StdinLocker.tryRLock,
      StdinLocker.Unlock, StdinLocker.RUnlock]
  · split <;> simp_all
  · split <;> simp_all
  · split <;> simp_all
  · split
    · intro hl
      have := h hl
      omega
    · simpa using h

theorem runOps_exclusion (ops : List LockerOp) (cl : StdinLocker)
    (h : cl.locked = true → cl.rlockCnt ≤ 0) :
    (runOps ops cl).locked = true → (runOps ops cl).rlockCnt ≤ 0 := by
  induction ops generalizing cl with
  | nil => simpa [runOps] using h
  | cons op ops ih => exact ih (op.apply cl) (LockerOp.apply_exclusion op cl h)

/-- C1: in every locker state reached from `NewStdinLocker` by a finite
sequence of `tryLock`, `tryRLock`, `Unlock` and `RUnlock` steps, the flag
`locked` is never true while the counter `rlockCnt` is greater than zero. -/
theorem stdinLocker_exclusive_excludes_shared (ops : List LockerOp) :
    ¬ ((runOps ops NewStdinLocker).locked = true ∧
        0 < (runOps ops NewStdinLocker).rlockCnt) := by
  rintro ⟨hl, hc⟩
  have := runOps_exclusion ops NewStdinLocker (by simp [NewStdinLocker]) hl
  omega

/-! ### Overflow of the shared counter -/

theorem wrapInt32_succ_wrapInt32 (x : Int) :
    wrapInt32 (wrapInt32 x + 1) = wrapInt32 (x + 1) := by
  unfold wrapInt32
  omega

theorem RLock_of_unlocked (cl : StdinLocker) (h : cl.locked = false) :
    cl.RLock [] = some (none, { cl with rlockCnt := wrapInt32 (cl.rlockCnt + 1) }) := by
  simp [StdinLocker.RLock, StdinLocker.RLockContext, StdinLocker.lockContext, lockLoop,
    StdinLocker.tryRLock, h]

/-- On an unlocked locker `n` consecutive `RLock` calls are all granted at
once, and the counter is the 32-bit reduction of the number of holds. -/
theorem acquireShared_unlocked (n : Nat) (c : Int) :
    acquireShared n { locked := false, rlockCnt := wrapInt32 c } =
      some { locked := false, rlockCnt := wrapInt32 (c + n) } := by
  induction n generalizing c with
  | zero => simp [acquireShared]
  | succ n ih =>
    rw [acquireShared, RLock_of_unlocked _ rfl]
    simp only [wrapInt32_succ_wrapInt32]
    rw [ih (c + 1)]
    congr 3
    push_cast
    ring

theorem runOps_replicate_tryRLock (n : Nat) (c : Int) :
    runOps (List.replicate n LockerOp.tryRLock) { locked := false, rlockCnt := wrapInt32 c } =
      { locked := false, rlockCnt := wrapInt32 (c + n) } := by
  induction n generalizing c with
  | zero => simp [runOps]
  | succ n ih =>
    rw [List.replicate_succ, runOps]
    simp only [LockerOp.apply, StdinLocker.tryRLock, Bool.false_eq_true, if_false,
      wrapInt32_succ_wrapInt32]
    rw [ih (c + 1)]
    congr 2
    push_cast
    ring

theorem releaseShared_of_le (k : Nat) (b : Bool) (c : Int) (hk : (k : Int) ≤ c)
    (hc : c < 2147483648) :
    releaseShared k { locked := b, rlockCnt := c } =
      some { locked := b, rlockCnt := c - k } := by
  induction k generalizing c with
  | zero => simp [releaseShared]
  | succ k ih =>
    have hpos : 0 < c := by push_cast at hk; omega
    have hw : wrapInt32 (c - 1) = c - 1 := wrapInt32_of_isInt32 (by unfold isInt32; omega)
    rw [releaseShared]
    simp only [StdinLocker.RUnlock, hpos, if_true, hw]
    rw [ih (c - 1) (by push_cast at hk; omega) (by omega)]
    congr 2
    push_cast
    ring

/-- Below the overflow the scenario of C2 holds: for `1 ≤ n < 2^31`, `n`
consecutive `RLock` calls on a fresh locker are all granted at once, after
`k < n` calls of `RUnlock` the attempt `tryLock` is refused, and after `n` of
them the locker is fresh again and `tryLock` is granted. -/
theorem shared_holds_block_exclusive_below_overflow (n : Nat) (h1 : 1 ≤ n)
    (h2 : n < 2147483648) :
    ∃ cl, acquireShared n NewStdinLocker = some cl ∧
      (∀ k, k < n → ∃ cl', releaseShared k cl = some cl' ∧ cl'.tryLock = (false, cl')) ∧
      releaseShared n cl = some NewStdinLocker ∧
      NewStdinLocker.tryLock.1 = true := by
  have hacq := acquireShared_unlocked n 0
  have h0 : wrapInt32 0 = 0 := by decide
  have hn : wrapInt32 (0 + (n : Int)) = n := by
    rw [wrapInt32_of_isInt32 (by unfold isInt32; omega)]
    omega
  rw [h0, hn] at hacq
  refine ⟨_, hacq, ?_, ?_, by decide⟩
  · intro k hk
    refine ⟨_, releaseShared_of_le k false n (by omega) (by omega), ?_⟩
    have : (0 : Int) < (n : Int) - (k : Int) := by omega
    simp [StdinLocker.tryLock, this]
  · rw [releaseShared_of_le n false n (by omega) (by omega)]
    simp [NewStdinLocker]

theorem shared_holds_block_exclusive_below_overflow_witness :
    ∃ cl, acquireShared 2 NewStdinLocker = some cl ∧
      (∀ k, k < 2 → ∃ cl', releaseShared k cl = some cl' ∧ cl'.tryLock = (false, cl')) ∧
      releaseShared 2 cl = some NewStdinLocker ∧
      NewStdinLocker.tryLock.1 = true :=
  shared_holds_block_exclusive_below_overflow 2 (by decide) (by decide)

/-- C2, evaluated at `n = 2^31`: the `2^31` consecutive `RLock` calls on a
fresh locker are all granted at once and leave the counter at `-2^31`; with
all of these shared holds outstanding (no `RUnlock` has been called, and
`RUnlock` itself now fails) the attempt `tryLock` is granted. -/
theorem exclusive_granted_with_shared_holds_outstanding :
    acquireShared 2147483648 NewStdinLocker =
        some { locked := false, rlockCnt := -2147483648 } ∧
      (StdinLocker.tryLock { locked := false, rlockCnt := -2147483648 }).1 = true ∧
      (StdinLocker.RUnlock { locked := false, rlockCnt := -2147483648 }).1 =
        some (GoError.plain "locker is unlocked") := by
  have h := acquireShared_unlocked 2147483648 0
  have h0 : wrapInt32 0 = 0 := by decide
  have hn : wrapInt32 (0 + ((2147483648 : Nat) : Int)) = -2147483648 := by decide
  rw [h0, hn] at h
  exact ⟨h, by decide, by decide⟩

/-- Below the overflow the counter is never negative: when fewer than `2^31`
`tryRLock` steps are taken from a locker with a counter `c ≥ 0`, the counter
stays at least zero. -/
theorem runOps_rlockCnt_nonneg_below_overflow (ops : List LockerOp) (cl : StdinLocker)
    (h0 : 0 ≤ cl.rlockCnt)
    (hb : cl.rlockCnt + (ops.count LockerOp.tryRLock : Int) < 2147483648) :
    0 ≤ (runOps ops cl).rlockCnt := by
  induction ops generalizing cl with
  | nil => simpa [runOps] using h0
  | cons op ops ih =>
    rw [runOps]
    cases op
    · apply ih
      · simp only [LockerOp.apply, StdinLocker.tryLock]; split <;> simpa using h0
      · simp only [LockerOp.apply, StdinLocker.tryLock]
        simp at hb
        split <;> simpa using hb
    · simp only [List.count_cons_self] at hb
      push_cast at hb
      have hw : wrapInt32 (cl.rlockCnt + 1) = cl.rlockCnt + 1 :=
        wrapInt32_of_isInt32 (by unfold isInt32; omega)
      apply ih
      · simp only [LockerOp.apply, StdinLocker.tryRLock]
        split
        · simpa using h0
        · simp only [hw]; omega
      · simp only [LockerOp.apply, StdinLocker.tryRLock]
        split
        · simp only; omega
        · simp only [hw]; omega
    · apply ih
      · simp only [LockerOp.apply, StdinLocker.Unlock]; split <;> simpa using h0
      · simp only [LockerOp.apply, StdinLocker.Unlock]
        simp at hb
        split <;> simpa using hb
    · simp at hb
      apply ih
      · simp only [LockerOp.apply, StdinLocker.RUnlock]
        split
        · rename_i hpos
          have hw : wrapInt32 (cl.rlockCnt - 1) = cl.rlockCnt - 1 :=
            wrapInt32_of_isInt32 (by unfold isInt32; omega)
          simp only [hw]; omega
        · simpa using h0
      · simp only [LockerOp.apply, StdinLocker.RUnlock]
        split
        · rename_i hpos
          have hw : wrapInt32 (cl.rlockCnt - 1) = cl.rlockCnt - 1 :=
            wrapInt32_of_isInt32 (by unfold isInt32; omega)
          simp only [hw]; omega
        · simpa using hb

theorem runOps_rlockCnt_nonneg_below_overflow_witness :
    0 ≤ (runOps [LockerOp.tryRLock, LockerOp.RUnlock, LockerOp.RUnlock]
      NewStdinLocker).rlockCnt :=
  runOps_rlockCnt_nonneg_below_overflow _ NewStdinLocker (by decide) (by decide)

/-- C3, evaluated at its failing input: after `2^31` granted `tryRLock` steps
from `NewStdinLocker` the counter `rlockCnt` is `-2^31`, a negative value. -/
theorem rlockCnt_negative_after_overflow :
    runOps (List.replicate 2147483648 LockerOp.tryRLock) NewStdinLocker =
        { locked := false, rlockCnt := -2147483648 } ∧
      (runOps (List.replicate 2147483648 LockerOp.tryRLock) NewStdinLocker).rlockCnt < 0 := by
  have h := runOps_replicate_tryRLock 2147483648 0
  have h0 : wrapInt32 0 = 0 := by decide
  have hn : wrapInt32 (0 + ((2147483648 : Nat) : Int)) = -2147483648 := by decide
  rw [h0, hn] at h
  have h' : runOps (List.replicate 2147483648 LockerOp.tryRLock) NewStdinLocker =
      { locked := false, rlockCnt := -2147483648 } := h
  refine ⟨h', ?_⟩
  rw [h']
  decide

/-! ### Releases and single attempts -/

/-- C4: `Unlock` returns an error exactly when `locked` is false and `RUnlock`
exactly when `rlockCnt` is not positive; a call that returns an error leaves
the locker as it was; a successful `Unlock` only clears `locked`, and a
successful `RUnlock` only lowers `rlockCnt` by one. -/
theorem unlock_rUnlock_error_iff_and_frame (cl : StdinLocker) (hc : isInt32 cl.rlockCnt) :
    (cl.Unlock.1.isSome = true ↔ cl.locked = false) ∧
    (cl.RUnlock.1.isSome = true ↔ ¬ 0 < cl.rlockCnt) ∧
    (cl.Unlock.1.isSome = true → cl.Unlock.2 = cl) ∧
    (cl.RUnlock.1.isSome = true → cl.RUnlock.2 = cl) ∧
    (cl.Unlock.1 = none →
      cl.Unlock.2 = { locked := false, rlockCnt := cl.rlockCnt }) ∧
    (cl.RUnlock.1 = none →
      cl.RUnlock.2 = { locked := cl.locked, rlockCnt := cl.rlockCnt - 1 }) := by
  obtain ⟨b, c⟩ := cl
  have hlo : -2147483648 ≤ c := hc.1
  have hhi : c < 2147483648 := hc.2
  refine ⟨?_, ?_, ?_, ?_, ?_, ?_⟩
  · cases b <;> simp [StdinLocker.Unlock]
  · by_cases hp : 0 < c <;> simp [StdinLocker.RUnlock, hp]
  · cases b <;> simp [StdinLocker.Unlock]
  · by_cases hp : 0 < c <;> simp [StdinLocker.RUnlock, hp]
  · cases b <;> simp [StdinLocker.Unlock]
  · by_cases hp : 0 < c
    · have hw : wrapInt32 (c - 1) = c - 1 :=
        wrapInt32_of_isInt32 (by unfold isInt32; omega)
      simp [StdinLocker.RUnlock, hp, hw]
    · simp [StdinLocker.RUnlock, hp]

theorem unlock_rUnlock_error_iff_and_frame_witness :
    isInt32 3 ∧
      (StdinLocker.RUnlock { locked := false, rlockCnt := 3 }).2 =
        { locked := false, rlockCnt := 3 - 1 } :=
  ⟨by decide,
    (unlock_rUnlock_error_iff_and_frame { locked := false, rlockCnt := 3 }
      (by decide)).2.2.2.2.2 (by decide)⟩

/-- Single attempts apart from the overflow: `tryLock` is granted exactly when
`locked` is false and `rlockCnt` is not positive, and a grant sets `locked`
and keeps the counter; `tryRLock` is granted exactly when `locked` is false,
and a grant keeps `locked` and adds one to the counter in 32-bit arithmetic
(the new value is an `int32` congruent to the old value plus one, and equal to
it below the largest `int32`); a refused attempt leaves the locker as it was. -/
theorem tryLock_tryRLock_grant_iff_and_effect (cl : StdinLocker)
    (hc : isInt32 cl.rlockCnt) :
    (cl.tryLock.1 = true ↔ (cl.locked = false ∧ ¬ 0 < cl.rlockCnt)) ∧
    (cl.tryLock.1 = true →
      cl.tryLock.2 = { locked := true, rlockCnt := cl.rlockCnt }) ∧
    (cl.tryLock.1 = false → cl.tryLock.2 = cl) ∧
    (cl.tryRLock.1 = true ↔ cl.locked = false) ∧
    (cl.tryRLock.1 = true →
      cl.tryRLock.2.locked = cl.locked ∧
      isInt32 cl.tryRLock.2.rlockCnt ∧
      (cl.tryRLock.2.rlockCnt - (cl.rlockCnt + 1)) % 4294967296 = 0 ∧
      (cl.rlockCnt < 2147483647 → cl.tryRLock.2.rlockCnt = cl.rlockCnt + 1)) ∧
    (cl.tryRLock.1 = false → cl.tryRLock.2 = cl) := by
  obtain ⟨b, c⟩ := cl
  have hlo : -2147483648 ≤ c := hc.1
  have hhi : c < 2147483648 := hc.2
  refine ⟨?_, ?_, ?_, ?_, ?_, ?_⟩
  · by_cases hp : 0 < c <;> cases b <;> simp [StdinLocker.tryLock, hp]
  · by_cases hp : 0 < c <;> cases b <;> simp [StdinLocker.tryLock, hp]
  · by_cases hp : 0 < c <;> cases b <;> simp [StdinLocker.tryLock, hp]
  · cases b <;> simp [StdinLocker.tryRLock]
  · cases b
    · intro _
      simp only [StdinLocker.tryRLock, Bool.false_eq_true, if_false]
      refine ⟨trivial, isInt32_wrapInt32 _, ?_, ?_⟩
      · unfold wrapInt32; omega
      · intro hlt
        exact wrapInt32_of_isInt32 (by unfold isInt32; omega)
    · simp [StdinLocker.tryRLock]
  · cases b <;> simp [StdinLocker.tryRLock]

theorem tryLock_tryRLock_grant_iff_and_effect_witness :
    isInt32 1 ∧
      (StdinLocker.tryLock { locked := false, rlockCnt := 1 }).2 =
        { locked := false, rlockCnt := 1 } :=
  ⟨by decide,
    (tryLock_tryRLock_grant_iff_and_effect { locked := false, rlockCnt := 1 }
      (by decide)).2.2.1 (by decide)⟩

/-- C5, evaluated at its failing input, the locker with `locked` false and
`rlockCnt` at 2147483647, which `2^31 - 1` granted `tryRLock` steps reach from
`NewStdinLocker`: the attempt `tryRLock` is granted, but the counter it leaves
is -2147483648 and not the old counter plus one. -/
theorem tryRLock_grant_wraps_at_max_int32 :
    runOps (List.replicate 2147483647 LockerOp.tryRLock) NewStdinLocker =
        { locked := false, rlockCnt := 2147483647 } ∧
      isInt32 2147483647 ∧
      StdinLocker.tryRLock { locked := false, rlockCnt := 2147483647 } =
        (true, { locked := false, rlockCnt := -2147483648 }) ∧
      (StdinLocker.tryRLock { locked := false, rlockCnt := 2147483647 }).2.rlockCnt ≠
        2147483647 + 1 := by
  have h := runOps_replicate_tryRLock 2147483647 0
  have h0 : wrapInt32 0 = 0 := by decide
  have hn : wrapInt32 (0 + ((2147483647 : Nat) : Int)) = 2147483647 := by decide
  rw [h0, hn] at h
  exact ⟨h, by decide, by decide, by decide⟩

/-! ### Blocking acquisition -/

theorem runOps_append (a b : List LockerOp) (cl : StdinLocker) :
    runOps (a ++ b) cl = runOps b (runOps a cl) := by
  induction a generalizing cl with
  | nil => rfl
  | cons op a ih => exact ih (op.apply cl)

/-- The loop of `lockContext`, for an attempt `fn` that changes nothing when it
is refused: a result with an error carries the locker as the other parties
left it, a result without error carries that locker after one granted
attempt. -/
theorem lockLoop_result (fn : StdinLocker → Bool × StdinLocker)
    (hfn : ∀ c, (fn c).1 = false → (fn c).2 = c)
    (waits : List WaitRound) (cl : StdinLocker) (r : Option GoError × StdinLocker)
    (h : lockLoop fn waits cl = some r) :
    ∃ k, k ≤ waits.length ∧
      (r.1.isSome = true → r.2 = runOps (othersSteps (waits.take k)) cl) ∧
      (r.1 = none →
        (fn (runOps (othersSteps (waits.take k)) cl)).1 = true ∧
        r.2 = (fn (runOps (othersSteps (waits.take k)) cl)).2) := by
  induction waits generalizing cl with
  | nil =>
    unfold lockLoop at h
    by_cases hg : (fn cl).1 = true
    · simp only [hg, if_true, Option.some.injEq] at h
      subst h
      exact ⟨0, le_refl _, by simp, fun _ => by simp [othersSteps, runOps, hg]⟩
    · simp [hg] at h
  | cons w rest ih =>
    unfold lockLoop at h
    by_cases hg : (fn cl).1 = true
    · simp only [hg, if_true, Option.some.injEq] at h
      subst h
      exact ⟨0, Nat.zero_le _, by simp, fun _ => by simp [othersSteps, runOps, hg]⟩
    · have hf : (fn cl).1 = false := by simpa using hg
      have hsame := hfn cl hf
      simp only [hf, Bool.false_eq_true, if_false, hsame] at h
      by_cases hd : w.done = true
      · simp only [hd, if_true, Option.some.injEq] at h
        subst h
        refine ⟨1, by simp, fun _ => ?_, fun hn => by simp at hn⟩
        simp [othersSteps]
      · simp only [hd, if_false] at h
        obtain ⟨k, hk, he, hs⟩ := ih (runOps w.others cl) h
        refine ⟨k + 1, by simpa using hk, ?_, ?_⟩
        · intro hr
          simpa [othersSteps, runOps_append] using he hr
        · intro hr
          simpa [othersSteps, runOps_append] using hs hr

/-- The loop of `lockContext` returns once `ctx.Done()` fires in one of the
waits. -/
theorem lockLoop_returns_of_done (fn : StdinLocker → Bool × StdinLocker)
    (waits : List WaitRound) (cl : StdinLocker)
    (h : ∃ w, w ∈ waits ∧ w.done = true) :
    (lockLoop fn waits cl).isSome = true := by
  induction waits generalizing cl with
  | nil => simp at h
  | cons w rest ih =>
    unfold lockLoop
    by_cases hg : (fn cl).1 = true
    · simp [hg]
    · by_cases hd : w.done = true
      · simp [hg, hd]
      · simp only [hg, hd, if_false]
        apply ih
        obtain ⟨w', hw', hd'⟩ := h
        rcases List.mem_cons.mp hw' with rfl | hmem
        · exact absurd hd' hd
        · exact ⟨w', hmem, hd'⟩

theorem lockLoop_returns_of_done_witness :
    (lockLoop StdinLocker.tryLock [{ others := [], done := true }]
      { locked := true, rlockCnt := 0 }).isSome = true :=
  lockLoop_returns_of_done _ _ _ ⟨_, List.mem_singleton.mpr rfl, rfl⟩

theorem othersSteps_eq_nil (waits : List WaitRound)
    (h : ∀ w, w ∈ waits → w.others = []) (k : Nat) :
    othersSteps (waits.take k) = [] := by
  induction waits generalizing k with
  | nil => simp [othersSteps]
  | cons w rest ih =>
    cases k with
    | zero => simp [othersSteps]
    | succ k =>
      simp only [List.take_succ_cons, othersSteps]
      rw [h w (List.mem_cons_self _ _), ih (fun w' hw' => h w' (List.mem_cons_of_mem _ hw'))]
      rfl

/-- C6: acquisition is all or nothing.  For every locker, every value of
`ctx.Err()` on entry and every schedule of waits: when `LockContext` or
`RLockContext` returns an error, the locker is exactly what the steps of the
other parties made of it (so it is the locker before the call when no other
party acts); when it returns without error, the locker is what the other
parties made of it followed by exactly one grant: `locked` set from false to
true with the counter kept, or the counter raised by one (in 32-bit
arithmetic) with `locked` kept false. -/
theorem lockContext_all_or_nothing (cl : StdinLocker) (entry : Option ContextError)
    (waits : List WaitRound) :
    (∀ e cl', cl.LockContext entry waits = some (some e, cl') →
      (∃ k, k ≤ waits.length ∧ cl' = runOps (othersSteps (waits.take k)) cl) ∧
      ((∀ w, w ∈ waits → w.others = []) → cl' = cl)) ∧
    (∀ cl', cl.LockContext entry waits = some (none, cl') →
      ∃ k, k ≤ waits.length ∧
        (runOps (othersSteps (waits.take k)) cl).locked = false ∧
        ¬ 0 < (runOps (othersSteps (waits.take k)) cl).rlockCnt ∧
        cl' = { locked := true,
                rlockCnt := (runOps (othersSteps (waits.take k)) cl).rlockCnt }) ∧
    (∀ e cl', cl.RLockContext entry waits = some (some e, cl') →
      (∃ k, k ≤ waits.length ∧ cl' = runOps (othersSteps (waits.take k)) cl) ∧
      ((∀ w, w ∈ waits → w.others = []) → cl' = cl)) ∧
    (∀ cl', cl.RLockContext entry waits = some (none, cl') →
      ∃ k, k ≤ waits.length ∧
        (runOps (othersSteps (waits.take k)) cl).locked = false ∧
        cl' = { locked := false,
                rlockCnt :=
                  wrapInt32 ((runOps (othersSteps (waits.take k)) cl).rlockCnt + 1) }) := by
  have hL : ∀ c : StdinLocker, (c.tryLock).1 = false → (c.tryLock).2 = c := by
    intro c
    unfold StdinLocker.tryLock
    split <;> simp
  have hR : ∀ c : StdinLocker, (c.tryRLock).1 = false → (c.tryRLock).2 = c := by
    intro c
    unfold StdinLocker.tryRLock
    split <;> simp
  have herr : ∀ (fn : StdinLocker → Bool × StdinLocker),
      (∀ c, (fn c).1 = false → (fn c).2 = c) →
      ∀ e cl', cl.lockContext entry waits fn = some (some e, cl') →
        (∃ k, k ≤ waits.length ∧ cl' = runOps (othersSteps (waits.take k)) cl) ∧
        ((∀ w, w ∈ waits → w.others = []) → cl' = cl) := by
    intro fn hfn e cl' h
    have hex : ∃ k, k ≤ waits.length ∧ cl' = runOps (othersSteps (waits.take k)) cl := by
      cases entry with
      | some e0 =>
        simp only [StdinLocker.lockContext, Option.some.injEq, Prod.mk.injEq] at h
        exact ⟨0, Nat.zero_le _, by simp [othersSteps, runOps, h.2]⟩
      | none =>
        simp only [StdinLocker.lockContext] at h
        obtain ⟨k, hk, he, _⟩ := lockLoop_result fn hfn waits cl _ h
        exact ⟨k, hk, he (by simp)⟩
    refine ⟨hex, fun hno => ?_⟩
    obtain ⟨k, _, hk⟩ := hex
    rw [hk, othersSteps_eq_nil waits hno k]
    rfl
  have hok : ∀ (fn : StdinLocker → Bool × StdinLocker),
      (∀ c, (fn c).1 = false → (fn c).2 = c) →
      ∀ cl', cl.lockContext entry waits fn = some (none, cl') →
        ∃ k, k ≤ waits.length ∧
          (fn (runOps (othersSteps (waits.take k)) cl)).1 = true ∧
          cl' = (fn (runOps (othersSteps (waits.take k)) cl)).2 := by
    intro fn hfn cl' h
    cases entry with
    | some e0 => simp [StdinLocker.lockContext] at h
    | none =>
      simp only [StdinLocker.lockContext] at h
      obtain ⟨k, hk, _, hs⟩ := lockLoop_result fn hfn waits cl _ h
      exact ⟨k, hk, hs rfl⟩
  refine ⟨herr _ hL, ?_, herr _ hR, ?_⟩
  · intro cl' h
    obtain ⟨k, hk, hg, hs⟩ := hok _ hL cl' h
    refine ⟨k, hk, ?_⟩
    generalize runOps (othersSteps (waits.take k)) cl = pre at hg hs ⊢
    obtain ⟨b, c⟩ := pre
    subst hs
    by_cases hp : 0 < c <;> cases b <;> simp [StdinLocker.tryLock, hp] at hg ⊢
  · intro cl' h
    obtain ⟨k, hk, hg, hs⟩ := hok _ hR cl' h
    refine ⟨k, hk, ?_⟩
    generalize runOps (othersSteps (waits.take k)) cl = pre at hg hs ⊢
    obtain ⟨b, c⟩ := pre
    subst hs
    cases b <;> simp [StdinLocker.tryRLock] at hg ⊢

theorem lockContext_all_or_nothing_witness :
    (StdinLocker.LockContext { locked := false, rlockCnt := 1 } none
        [{ others := [], done := false }, { others := [], done := true }] =
      some (some (NewFileLockTimeoutError { Literal := stdinTokenLiteral }),
        { locked := false, rlockCnt := 1 })) ∧
      (({ locked := false, rlockCnt := 1 } : StdinLocker) =
        { locked := false, rlockCnt := 1 }) :=
  ⟨by decide,
    ((lockContext_all_or_nothing { locked := false, rlockCnt := 1 } none
      [{ others := [], done := false }, { others := [], done := true }]).1
        (NewFileLockTimeoutError { Literal := stdinTokenLiteral })
        { locked := false, rlockCnt := 1 } (by decide)).2 (by decide)⟩

/-- C7: for every locker, every attempt function and every schedule of waits,
a `lockContext` call (so every `LockContext` and `RLockContext` call) whose
context has already fired on entry returns at once, with the error
`NewFileLockTimeoutError` attributed to the stdin token, which is the error
returned when `ctx.Done()` fires during a wait; the locker is unchanged and
neither the attempt function nor the schedule of waits has any influence on
the result (no attempt, no wait). -/
theorem lockContext_fired_on_entry (cl : StdinLocker) (e : ContextError)
    (waits : List WaitRound) :
    cl.LockContext (some e) waits =
        some (some (NewFileLockTimeoutError { Literal := stdinTokenLiteral }), cl) ∧
      cl.RLockContext (some e) waits =
        some (some (NewFileLockTimeoutError { Literal := stdinTokenLiteral }), cl) ∧
      (∀ (fn fn' : StdinLocker → Bool × StdinLocker) (waits' : List WaitRound),
        cl.lockContext (some e) waits fn = cl.lockContext (some e) waits' fn') ∧
      (∀ (fn : StdinLocker → Bool × StdinLocker) (c : StdinLocker) (w : WaitRound)
          (rest : List WaitRound),
        (fn c).1 = false → w.done = true →
          ∃ c', lockLoop fn (w :: rest) c =
            some (some (NewFileLockTimeoutError { Literal := stdinTokenLiteral }), c')) := by
  refine ⟨rfl, rfl, fun _ _ _ => rfl, ?_⟩
  intro fn c w rest hf hd
  refine ⟨runOps w.others (fn c).2, ?_⟩
  unfold lockLoop
  simp [hf, hd]

/-! ## Theorems: output routing -/

theorem getD_last_eq (s : GoString) (x : UInt8) (h : s.getLast? = some x) :
    s.getD (s.length - 1) 0 = x := by
  rw [List.getLast?_eq_getElem?] at h
  rw [List.getD_eq_getElem?_getD, h]
  rfl

/-- The text the line-break variants hand on: `s` itself when `s` is empty or
ends with a newline, and `s` followed by one newline otherwise. -/
theorem lineBreak_condition (s : GoString) :
    (if (decide (0 < s.length) && s.getD (s.length - 1) 0 != 10) = true then s ++ [10] else s) =
      (if s = [] ∨ s.getLast? = some 10 then s else s ++ [10]) := by
  cases hs : s.getLast? with
  | none =>
    have : s = [] := List.getLast?_eq_none_iff.mp hs
    subst this
    simp
  | some x =>
    have hne : s ≠ [] := by
      intro h
      subst h
      simp at hs
    have hlen : 0 < s.length := List.length_pos.mpr hne
    rw [getD_last_eq s x hs]
    by_cases hx : x = 10
    · subst hx
      simp [hlen]
    · simp [hlen, hx, hne]

/-- C8 as stated fails on the empty string: it does not end with a newline,
yet `WriteToStdoutWithLineBreak` and `WriteToStderrWithLineBreak` deliver the
empty string to the raw streams, not a single newline. -/
theorem writeWithLineBreak_empty_string_no_newline :
    ([] : GoString).getLast? ≠ some 10 ∧
      (bufferSession.WriteToStdoutWithLineBreak []).2.stdout =
        some { written := [], failure := none } ∧
      bufferSession.WriteToStdoutWithLineBreak [] ≠
        bufferSession.WriteToStdout ([] ++ [10]) ∧
      (bufferSession.WriteToStderrWithLineBreak []).2.stderr =
        some { written := [], failure := none } ∧
      bufferSession.WriteToStderrWithLineBreak [] ≠
        bufferSession.WriteToStderr ([] ++ [10]) := by
  decide

/-- C8, amended: for every session and every string `s`,
`WriteToStdoutWithLineBreak s` is `WriteToStdout` of `s` itself when `s` is
empty or ends with a newline, and of `s` followed by exactly one newline
otherwise; `WriteToStderrWithLineBreak` relates to `WriteToStderr` in the same
way. -/
theorem writeWithLineBreak_delivers (sess : Session) (s : GoString) :
    sess.WriteToStdoutWithLineBreak s =
        sess.WriteToStdout (if s = [] ∨ s.getLast? = some 10 then s else s ++ [10]) ∧
      sess.WriteToStderrWithLineBreak s =
        sess.WriteToStderr (if s = [] ∨ s.getLast? = some 10 then s else s ++ [10]) := by
  have h := lineBreak_condition s
  constructor
  · rw [← h]
    unfold Session.WriteToStdoutWithLineBreak
    split <;> rfl
  · rw [← h]
    unfold Session.WriteToStderrWithLineBreak
    split <;> rfl

/-- C9: `WriteToStdout s` hands `s` to the terminal's `Write` when a terminal
is attached, and changes nothing else; otherwise it hands the bytes of `s` to
the raw stdout stream when that is not nil, appending them to what the stream
received, and changes nothing else; otherwise it changes nothing and returns
no error.  `WriteToStderr s` does the same with the terminal's `WriteError`
and the raw stderr stream.  In every case the error returned is the one the
sink reports, and the other raw stream and the out-file are as before. -/
theorem writeToStdout_writeToStderr_routing (sess : Session) (s : GoString) :
    (∀ t, sess.terminal = some t →
      sess.WriteToStdout s =
        (t.writeFailure,
          { sess with terminal := some { t with calls := t.calls ++ [TerminalCall.Write s] } })) ∧
    (∀ w, sess.terminal = none → sess.stdout = some w →
      sess.WriteToStdout s =
        (w.failure, { sess with stdout := some { w with written := w.written ++ s } })) ∧
    (sess.terminal = none → sess.stdout = none → sess.WriteToStdout s = (none, sess)) ∧
    (∀ t, sess.terminal = some t →
      sess.WriteToStderr s =
        (t.writeErrorFailure,
          { sess with
            terminal := some { t with calls := t.calls ++ [TerminalCall.WriteError s] } })) ∧
    (∀ w, sess.terminal = none → sess.stderr = some w →
      sess.WriteToStderr s =
        (w.failure, { sess with stderr := some { w with written := w.written ++ s } })) ∧
    (sess.terminal = none → sess.stderr = none → sess.WriteToStderr s = (none, sess)) ∧
    (sess.WriteToStdout s).2.stderr = sess.stderr ∧
    (sess.WriteToStdout s).2.outFile = sess.outFile ∧
    (sess.WriteToStderr s).2.stdout = sess.stdout ∧
    (sess.WriteToStderr s).2.outFile = sess.outFile ∧
    (sess.terminal ≠ none →
      (sess.WriteToStdout s).2.stdout = sess.stdout ∧
      (sess.WriteToStderr s).2.stderr = sess.stderr) := by
  refine ⟨?_, ?_, ?_, ?_, ?_, ?_, ?_, ?_, ?_, ?_, ?_⟩
  · intro t ht
    simp [Session.WriteToStdout, ht, VirtualTerminal.Write]
  · intro w ht hw
    simp [Session.WriteToStdout, ht, hw, WriteCloser.Write]
  · intro ht hw
    simp [Session.WriteToStdout, ht, hw]
  · intro t ht
    simp [Session.WriteToStderr, ht, VirtualTerminal.WriteError]
  · intro w ht hw
    simp [Session.WriteToStderr, ht, hw, WriteCloser.Write]
  · intro ht hw
    simp [Session.WriteToStderr, ht, hw]
  · unfold Session.WriteToStdout
    split
    · rfl
    · split <;> rfl
  · unfold Session.WriteToStdout
    split
    · rfl
    · split <;> rfl
  · unfold Session.WriteToStderr
    split
    · rfl
    · split <;> rfl
  · unfold Session.WriteToStderr
    split
    · rfl
    · split <;> rfl
  · intro ht
    cases hterm : sess.terminal with
    | none => exact absurd hterm ht
    | some t => simp [Session.WriteToStdout, Session.WriteToStderr, hterm]

theorem writeToStdout_writeToStderr_routing_witness :
    bufferSession.terminal = none ∧
      bufferSession.stdout = some { written := [], failure := none } ∧
      bufferSession.WriteToStdout [111, 107] =
        (none,
          { bufferSession with stdout := some { written := [] ++ [111, 107], failure := none } }) :=
  ⟨rfl, rfl,
    (writeToStdout_writeToStderr_routing bufferSession [111, 107]).2.1
      { written := [], failure := none } rfl rfl⟩

/-! ## Theorems: stdin replacement -/

theorem isReadableFromPipeOrRedirection_iff (fp : OsFile) :
    isReadableFromPipeOrRedirection fp = true ↔
      ∃ fi, fp.stat = some fi ∧ (fi.Mode &&& ModeNamedPipe ≠ 0 ∨ 0 < fi.Size) := by
  unfold isReadableFromPipeOrRedirection
  cases fp.stat with
  | none => simp
  | some fi => simp

theorem LockContext_of_free (cl : StdinLocker) (waits : List WaitRound)
    (hl : cl.locked = false) (hc : cl.rlockCnt ≤ 0) :
    cl.LockContext none waits = some (none, { cl with locked := true }) := by
  have hn : ¬ 0 < cl.rlockCnt := by omega
  unfold StdinLocker.LockContext StdinLocker.lockContext
  simp only
  unfold lockLoop
  simp [StdinLocker.tryLock, hl, hn]

theorem ReadCloser.ReadAll_fst (r : ReadCloser) :
    r.ReadAll.1 = (r.stream.pending, r.stream.failure.map GoError.plain) := by
  cases r <;> rfl

theorem ReadCloser.ReadAll_snd_stream (r : ReadCloser) :
    r.ReadAll.2.stream = { r.stream with pending := [], reads := r.stream.reads + 1 } := by
  cases r <;> rfl

/-- The effect of `SetStdinContext` on a session whose stdin lock is free,
with the flag `CanReadStdin` and the following `GetStdinView` stated through
the functions of the model. -/
theorem SetStdinContext_of_free (sess : Session) (waits : List WaitRound)
    (r : Option ReadCloser) (hl : sess.stdinLocker.locked = false)
    (hc : sess.stdinLocker.rlockCnt ≤ 0) :
    ∃ sess', sess.SetStdinContext none waits r = some (none, sess') ∧
      sess'.stdin = r ∧
      sess'.stdinViewMap.entries = [] ∧
      (∀ key, sess'.stdinViewMap.Exists key = false) ∧
      (sess'.CanReadStdin = true ↔
        ∃ r0, r = some r0 ∧
          ((∀ fp, r0 ≠ ReadCloser.file fp) ∨
            ∃ fp, r0 = ReadCloser.file fp ∧ isReadableFromPipeOrRedirection fp = true)) ∧
      (sess'.CanReadStdin = true ↔
        ∃ r0, r = some r0 ∧
          ((∀ fp, r0 ≠ ReadCloser.file fp) ∨
            ∃ fp fi, r0 = ReadCloser.file fp ∧ fp.stat = some fi ∧
              (fi.Mode &&& 33554432 ≠ 0 ∨ 0 < fi.Size))) ∧
      sess'.stdinLocker = sess.stdinLocker ∧
      sess'.stdinLocker.locked = false ∧
      sess'.stdinLocker.rlockCnt = sess.stdinLocker.rlockCnt ∧
      sess'.stdout = sess.stdout ∧ sess'.stderr = sess.stderr ∧
      sess'.outFile = sess.outFile ∧ sess'.terminal = sess.terminal ∧
      sess'.screenFd = sess.screenFd ∧
      (∀ (load : ViewLoader) (flags : Flags) (fileInfo : FileInfo) (expr : Stdin),
        (sess'.CanReadStdin = false →
          sess'.GetStdinView load flags fileInfo expr =
            some ((none, some (NewStdinEmptyError expr)), sess')) ∧
        (sess'.CanReadStdin = true →
          ∃ r0 res sess'', r = some r0 ∧
            sess'.GetStdinView load flags fileInfo expr = some (res, sess'') ∧
            sess''.stdin = some r0.ReadAll.2 ∧
            (∀ v, res.1 = some v →
              r0.ReadAll.1.2 = none ∧
              load flags r0.ReadAll.1.1 fileInfo flags.WithoutNull expr = Except.ok v))) := by
  obtain ⟨fd, sin, sout, serr, ofile, term, can, vm, ⟨b, c⟩⟩ := sess
  simp only at hl hc
  subst hl
  refine ⟨{ screenFd := fd, stdin := r, stdout := sout, stderr := serr, outFile := ofile,
            terminal := term, CanReadStdin := Session.canReadFrom r,
            stdinViewMap := { entries := [] },
            stdinLocker := { locked := false, rlockCnt := c } }, ?_, rfl, rfl, ?_, ?_, ?_, rfl,
          rfl, rfl, rfl, rfl, rfl, rfl, rfl, ?_⟩
  · unfold Session.SetStdinContext
    simp only
    rw [LockContext_of_free _ waits rfl hc]
    simp [StdinLocker.Unlock, ViewMap.Clean]
  · intro key
    simp [ViewMap.Exists]
  · simp only
    cases r with
    | none => simp [Session.canReadFrom]
    | some r0 =>
      cases r0 with
      | file fp => simp [Session.canReadFrom]
      | other rd => simp [Session.canReadFrom]
  · simp only
    cases r with
    | none => simp [Session.canReadFrom]
    | some r0 =>
      cases r0 with
      | file fp =>
        have h25 : ModeNamedPipe = 33554432 := by decide
        simp [Session.canReadFrom, isReadableFromPipeOrRedirection_iff, h25]
      | other rd => simp [Session.canReadFrom]
  · intro load flags fileInfo expr
    constructor
    · intro hcan
      simp only at hcan
      simp [Session.GetStdinView, ViewMap.Exists, hcan]
    · intro hcan
      simp only at hcan
      cases r with
      | none => simp [Session.canReadFrom] at hcan
      | some r0 =>
        simp only [Session.GetStdinView, ViewMap.Exists, hcan, List.lookup_nil,
          Option.isSome_none, Bool.not_false, if_true, Bool.not_true, Bool.false_eq_true,
          if_false]
        rcases hra : r0.ReadAll.1 with ⟨bytes, rerr⟩
        cases rerr with
        | some err =>
          refine ⟨r0, _, _, rfl, rfl, rfl, ?_⟩
          intro v hv
          simp at hv
        | none =>
          simp only
          cases hload : load flags bytes fileInfo flags.WithoutNull expr with
          | error err =>
            cases err with
            | plain msg =>
              refine ⟨r0, _, _, rfl, rfl, rfl, ?_⟩
              intro v hv
              simp at hv
            | domain e =>
              refine ⟨r0, _, _, rfl, rfl, rfl, ?_⟩
              intro v hv
              simp at hv
          | ok view =>
            refine ⟨r0, _, _, rfl, rfl, rfl, ?_⟩
            intro v hv
            refine ⟨by rw [hra], ?_⟩
            simp only [ViewMap.Store, ViewMap.Get, List.filter_nil, List.lookup_cons,
              List.lookup_nil] at hv
            split at hv
            · rename_i heq
              split at heq
              · simp at heq hv
                rw [hra, ← hv, ← heq]
                exact hload
              · simp at heq
            · simp at hv

/-- C10: for every session whose stdin lock is free (flag false, counter not
positive), every new stream `r` and every schedule of waits, `SetStdinContext`
with a context that has not fired returns (it does not block) with no error,
and the session it leaves has `r` as its stdin, an empty view cache (no key
exists in it), `CanReadStdin` true exactly when `r` is not nil and is either
not an `*os.File` or a file that `isReadableFromPipeOrRedirection` accepts,
that is a file whose `Stat` succeeds and reports the named-pipe bit
(`1 << 25`) in its mode or a size above zero, the
locker as before the call (flag false, counter unchanged), and every output
handle unchanged.  A following `GetStdinView`, for any reference, fails with
the stdin-empty error without touching the session when `CanReadStdin` is
false, and otherwise reads the new stream to its end (all pending bytes, one
more read counted); any view it returns is the one the loader made from the
bytes of the new stream, and it does return that view when the stream reads
without error and the loader files the view under the reference. -/
theorem setStdinContext_on_free_lock (sess : Session) (waits : List WaitRound)
    (r : Option ReadCloser) (hl : sess.stdinLocker.locked = false)
    (hc : sess.stdinLocker.rlockCnt ≤ 0) :
    ∃ sess', sess.SetStdinContext none waits r = some (none, sess') ∧
      sess'.stdin = r ∧
      sess'.stdinViewMap.entries = [] ∧
      (∀ key, sess'.stdinViewMap.Exists key = false) ∧
      (sess'.CanReadStdin = true ↔
        ∃ r0, r = some r0 ∧
          ((∀ fp, r0 ≠ ReadCloser.file fp) ∨
            ∃ fp, r0 = ReadCloser.file fp ∧ isReadableFromPipeOrRedirection fp = true)) ∧
      (sess'.CanReadStdin = true ↔
        ∃ r0, r = some r0 ∧
          ((∀ fp, r0 ≠ ReadCloser.file fp) ∨
            ∃ fp fi, r0 = ReadCloser.file fp ∧ fp.stat = some fi ∧
              (fi.Mode &&& 33554432 ≠ 0 ∨ 0 < fi.Size))) ∧
      sess'.stdinLocker = sess.stdinLocker ∧
      sess'.stdinLocker.locked = false ∧
      sess'.stdinLocker.rlockCnt = sess.stdinLocker.rlockCnt ∧
      sess'.stdout = sess.stdout ∧ sess'.stderr = sess.stderr ∧
      sess'.outFile = sess.outFile ∧ sess'.terminal = sess.terminal ∧
      sess'.screenFd = sess.screenFd ∧
      (∀ (load : ViewLoader) (flags : Flags) (fileInfo : FileInfo) (expr : Stdin),
        (sess'.CanReadStdin = false →
          sess'.GetStdinView load flags fileInfo expr =
            some ((none, some (NewStdinEmptyError expr)), sess')) ∧
        (sess'.CanReadStdin = true →
          ∃ r0 res sess'', r = some r0 ∧
            sess'.GetStdinView load flags fileInfo expr = some (res, sess'') ∧
            sess''.stdin = some r0.ReadAll.2 ∧
            r0.ReadAll.1 = (r0.stream.pending, r0.stream.failure.map GoError.plain) ∧
            r0.ReadAll.2.stream =
              { r0.stream with pending := [], reads := r0.stream.reads + 1 } ∧
            (∀ v, res.1 = some v →
              r0.stream.failure = none ∧
              load flags r0.stream.pending fileInfo flags.WithoutNull expr = Except.ok v) ∧
            (∀ view, r0.stream.failure = none →
              load flags r0.stream.pending fileInfo flags.WithoutNull expr = Except.ok view →
              view.FileInfo.Path = expr.str → res = (some view, none)))) := by
  obtain ⟨sess', h1, h2, h3, h4, h5, h6, h7, h8, h9, h10, h11, h12, h13, h14, hget⟩ :=
    SetStdinContext_of_free sess waits r hl hc
  refine ⟨sess', h1, h2, h3, h4, h5, h6, h7, h8, h9, h10, h11, h12, h13, h14, ?_⟩
  intro load flags fileInfo expr
  obtain ⟨he, ht⟩ := hget load flags fileInfo expr
  refine ⟨he, fun hcan => ?_⟩
  obtain ⟨r0, res, sess'', hr, hg, hs, hv⟩ := ht hcan
  have hfst := ReadCloser.ReadAll_fst r0
  refine ⟨r0, res, sess'', hr, hg, hs, hfst, ReadCloser.ReadAll_snd_stream r0, ?_, ?_⟩
  · intro v hres
    obtain ⟨hnone, hload⟩ := hv v hres
    rw [hfst] at hnone hload
    simp only at hnone hload
    refine ⟨?_, hload⟩
    cases hf : r0.stream.failure with
    | none => rfl
    | some msg => simp [hf] at hnone
  · intro view hf hload hp
    have hstdin : sess'.stdin = some r0 := by rw [h2, hr]
    have hcalc : sess'.GetStdinView load flags fileInfo expr =
        some ((some view, none),
          { sess' with
            stdin := some r0.ReadAll.2
            stdinViewMap := sess'.stdinViewMap.Store view.FileInfo.Path view }) := by
      simp [Session.GetStdinView, h4 expr.str, hcan, hstdin, hfst, hf, hload, ViewMap.Get,
        ViewMap.Store, hp]
    rw [hcalc] at hg
    simp only [Option.some.injEq, Prod.mk.injEq] at hg
    exact hg.1.symm

theorem setStdinContext_on_free_lock_witness :
    bufferSession.stdinLocker.locked = false ∧
      bufferSession.stdinLocker.rlockCnt ≤ 0 ∧
      ∃ sess', bufferSession.SetStdinContext none []
          (some (ReadCloser.file
            { stat := some { Mode := 33554432, Size := 0 },
              stream := { pending := [97, 10], failure := none, reads := 0 } })) =
            some (none, sess') ∧
        sess'.stdin =
          some (ReadCloser.file
            { stat := some { Mode := 33554432, Size := 0 },
              stream := { pending := [97, 10], failure := none, reads := 0 } }) ∧
        sess'.CanReadStdin = true :=
  ⟨rfl, by decide,
    (setStdinContext_on_free_lock bufferSession []
      (some (ReadCloser.file
        { stat := some { Mode := 33554432, Size := 0 },
          stream := { pending := [97, 10], failure := none, reads := 0 } }))
      rfl (by decide)).imp fun _ h =>
        ⟨h.1, h.2.1,
          h.2.2.2.2.2.1.mpr ⟨_, rfl, Or.inr ⟨_, _, rfl, rfl, Or.inl (by decide)⟩⟩⟩⟩

theorem tryLock_refused_unchanged (c : StdinLocker) (h : (c.tryLock).1 = false) :
    (c.tryLock).2 = c := by
  revert h
  unfold StdinLocker.tryLock
  split <;> simp

theorem tryLock_granted_locked (c : StdinLocker) (h : (c.tryLock).1 = true) :
    (c.tryLock).2.locked = true := by
  revert h
  unfold StdinLocker.tryLock
  split <;> simp

/-- A granted `LockContext` leaves the flag `locked` set. -/
theorem LockContext_granted_locked (cl cl' : StdinLocker) (entry : Option ContextError)
    (waits : List WaitRound) (h : cl.LockContext entry waits = some (none, cl')) :
    cl'.locked = true := by
  cases entry with
  | some e => simp [StdinLocker.LockContext, StdinLocker.lockContext] at h
  | none =>
    simp only [StdinLocker.LockContext, StdinLocker.lockContext] at h
    obtain ⟨k, _, _, hs⟩ := lockLoop_result _ tryLock_refused_unchanged waits cl _ h
    obtain ⟨hg, he⟩ := hs rfl
    simp only at he
    rw [he]
    exact tryLock_granted_locked _ hg

/-- A failed `LockContext` leaves the locker as the other parties made it. -/
theorem LockContext_failed_others_only (cl cl' : StdinLocker) (entry : Option ContextError)
    (waits : List WaitRound) (err : GoError)
    (h : cl.LockContext entry waits = some (some err, cl')) :
    ∃ k, k ≤ waits.length ∧ cl' = runOps (othersSteps (waits.take k)) cl := by
  cases entry with
  | some e =>
    simp only [StdinLocker.LockContext, StdinLocker.lockContext, Option.some.injEq,
      Prod.mk.injEq] at h
    exact ⟨0, Nat.zero_le _, by simp [othersSteps, runOps, h.2]⟩
  | none =>
    simp only [StdinLocker.LockContext, StdinLocker.lockContext] at h
    obtain ⟨k, hk, he, _⟩ := lockLoop_result _ tryLock_refused_unchanged waits cl _ h
    exact ⟨k, hk, he (by simp)⟩

/-- C11: whenever `SetStdinContext` returns an error, that error is the one
`LockContext` returned, unchanged, and nothing was mutated: the stdin stream,
the flag `CanReadStdin`, the view cache and the output handles are those of
before the call, and the locker is what the steps of the other parties made of
it, so with no other party at work the whole session is exactly as before. -/
theorem setStdinContext_failure_mutates_nothing (sess sess' : Session)
    (entry : Option ContextError) (waits : List WaitRound) (r : Option ReadCloser)
    (err : GoError) (h : sess.SetStdinContext entry waits r = some (some err, sess')) :
    sess.stdinLocker.LockContext entry waits = some (some err, sess'.stdinLocker) ∧
      sess'.stdin = sess.stdin ∧
      sess'.CanReadStdin = sess.CanReadStdin ∧
      sess'.stdinViewMap = sess.stdinViewMap ∧
      sess'.stdout = sess.stdout ∧ sess'.stderr = sess.stderr ∧
      sess'.outFile = sess.outFile ∧ sess'.terminal = sess.terminal ∧
      sess'.screenFd = sess.screenFd ∧
      (∃ k, k ≤ waits.length ∧
        sess'.stdinLocker = runOps (othersSteps (waits.take k)) sess.stdinLocker) ∧
      ((∀ w, w ∈ waits → w.others = []) → sess' = sess) := by
  unfold Session.SetStdinContext at h
  cases hlock : sess.stdinLocker.LockContext entry waits with
  | none => simp [hlock] at h
  | some res =>
    obtain ⟨oerr, cl⟩ := res
    cases oerr with
    | none =>
      have hl := LockContext_granted_locked _ _ _ _ hlock
      simp [hlock, StdinLocker.Unlock, hl] at h
    | some e =>
      simp only [hlock, Option.some.injEq, Prod.mk.injEq] at h
      obtain ⟨he, hs⟩ := h
      subst he
      subst hs
      have hothers := LockContext_failed_others_only _ _ _ _ _ hlock
      refine ⟨rfl, rfl, rfl, rfl, rfl, rfl, rfl, rfl, rfl, hothers, ?_⟩
      intro hno
      obtain ⟨k, _, hk⟩ := hothers
      rw [othersSteps_eq_nil waits hno k] at hk
      simp only [runOps] at hk
      rw [hk]

theorem setStdinContext_failure_mutates_nothing_witness :
    Session.SetStdinContext
        { bufferSession with stdinLocker := { locked := true, rlockCnt := 0 } } none
        [{ others := [], done := true }]
        (some (ReadCloser.other { pending := [97], failure := none, reads := 0 })) =
      some (some (NewFileLockTimeoutError { Literal := stdinTokenLiteral }),
        { bufferSession with stdinLocker := { locked := true, rlockCnt := 0 } }) ∧
      ({ bufferSession with stdinLocker := { locked := true, rlockCnt := 0 } } : Session).stdin =
        none :=
  ⟨by decide,
    (setStdinContext_failure_mutates_nothing
      { bufferSession with stdinLocker := { locked := true, rlockCnt := 0 } }
      { bufferSession with stdinLocker := { locked := true, rlockCnt := 0 } } none
      [{ others := [], done := true }]
      (some (ReadCloser.other { pending := [97], failure := none, reads := 0 }))
      (NewFileLockTimeoutError { Literal := stdinTokenLiteral }) (by decide)).2.1⟩

/-! ## Theorems: reading stdin as a view -/

/-- C13: for every session whose cache holds no entry for the reference and
whose flag `CanReadStdin` is false, `GetStdinView` returns no view and the
stdin-empty error attributed to the reference, and leaves the whole session
(stream, cache, locker) as it was; the result is the same for every parsing
collaborator, which is never consulted. -/
theorem getStdinView_stdin_empty (sess : Session) (load : ViewLoader) (flags : Flags)
    (fileInfo : FileInfo) (expr : Stdin)
    (hc : sess.stdinViewMap.Exists expr.str = false) (hr : sess.CanReadStdin = false) :
    sess.GetStdinView load flags fileInfo expr =
        some ((none, some (NewStdinEmptyError expr)), sess) ∧
      (∀ load' : ViewLoader,
        sess.GetStdinView load' flags fileInfo expr =
          sess.GetStdinView load flags fileInfo expr) := by
  constructor
  · simp [Session.GetStdinView, hc, hr]
  · intro load'
    simp [Session.GetStdinView, hc, hr]

theorem getStdinView_stdin_empty_witness :
    bufferSession.stdinViewMap.Exists "stdin" = false ∧
      bufferSession.CanReadStdin = false ∧
      bufferSession.GetStdinView (fun _ _ fi _ _ => Except.ok { FileInfo := fi, records := [] })
          initialFlags { Path := "stdin" } { str := "stdin" } =
        some ((none, some (NewStdinEmptyError { str := "stdin" })), bufferSession) :=
  ⟨rfl, rfl,
    (getStdinView_stdin_empty bufferSession
      (fun _ _ fi _ _ => Except.ok { FileInfo := fi, records := [] })
      initialFlags { Path := "stdin" } { str := "stdin" } rfl rfl).1⟩

/-- C14 as stated fails on the lookup that ends the call: on `pipedSession`,
whose cache is empty, the read and the collaborator succeed, the view is
stored under `data.csv`, and the call for the reference `stdin` returns the
error of the cache lookup, which is none of the errors of the taxonomy and no
`query.Error` built by `GetStdinView`; the call fails although the cache has
been given an entry. -/
theorem getStdinView_lookup_error_after_parse :
    pipedSession.stdinViewMap.Exists "stdin" = false ∧
      (∃ sess',
        pipedSession.GetStdinView sampleLoader initialFlags { Path := "data.csv" }
            { str := "stdin" } =
          some ((none, some (tableNotLoadedError { Literal := "stdin" })), sess') ∧
        sess'.stdinViewMap ≠ pipedSession.stdinViewMap) ∧
      (∀ q, tableNotLoadedError { Literal := "stdin" } ≠ GoError.domain q) := by
  refine ⟨rfl, ⟨_, rfl, by decide⟩, ?_⟩
  intro q h
  simp [tableNotLoadedError] at h

/-- C14, amended: on a session whose cache holds no entry for the reference,
a failure of the stream read is returned as the I/O error carrying the
reference and the message of the read error; a failure of the parsing
collaborator that is a `query.Error` is returned unchanged; any other failure
of the collaborator is returned as the data-parsing error carrying the
reference, the path of the file information and the message of the failure.
Every error the call returns is either one of these or the stdin-empty error,
a `query.Error` with no view and the cache as before, or it is the error of
the cache lookup that ends the call after a successful read and parse, whose
view has then been stored under a path other than the reference. -/
theorem getStdinView_failures_are_domain_errors (sess : Session) (load : ViewLoader)
    (flags : Flags) (fileInfo : FileInfo) (expr : Stdin)
    (hc : sess.stdinViewMap.Exists expr.str = false) :
    (∀ r msg, sess.CanReadStdin = true → sess.stdin = some r →
      r.stream.failure = some msg →
      sess.GetStdinView load flags fileInfo expr =
        some ((none, some (NewIOError expr msg)), { sess with stdin := some r.ReadAll.2 })) ∧
    (∀ r q, sess.CanReadStdin = true → sess.stdin = some r → r.stream.failure = none →
      load flags r.stream.pending fileInfo flags.WithoutNull expr =
        Except.error (GoError.domain q) →
      sess.GetStdinView load flags fileInfo expr =
        some ((none, some (GoError.domain q)), { sess with stdin := some r.ReadAll.2 })) ∧
    (∀ r msg, sess.CanReadStdin = true → sess.stdin = some r → r.stream.failure = none →
      load flags r.stream.pending fileInfo flags.WithoutNull expr =
        Except.error (GoError.plain msg) →
      sess.GetStdinView load flags fileInfo expr =
        some ((none, some (NewDataParsingError expr fileInfo.Path msg)),
          { sess with stdin := some r.ReadAll.2 })) ∧
    (∀ v e sess', sess.GetStdinView load flags fileInfo expr = some ((v, some e), sess') →
      (∀ r view, sess.stdin = some r → r.stream.failure = none →
        load flags r.stream.pending fileInfo flags.WithoutNull expr ≠ Except.ok view) →
      v = none ∧ (∃ q, e = GoError.domain q) ∧ sess'.stdinViewMap = sess.stdinViewMap) ∧
    (∀ v e sess', sess.GetStdinView load flags fileInfo expr = some ((v, some e), sess') →
      (v = none ∧ sess'.stdinViewMap = sess.stdinViewMap ∧
        (e = NewStdinEmptyError expr ∨ (∃ msg, e = NewIOError expr msg) ∨
          (∃ msg, e = NewDataParsingError expr fileInfo.Path msg) ∨
          (∃ r q, sess.stdin = some r ∧ e = GoError.domain q ∧
            load flags r.stream.pending fileInfo flags.WithoutNull expr = Except.error e))) ∨
      (∃ r view, sess.CanReadStdin = true ∧ sess.stdin = some r ∧ r.stream.failure = none ∧
        load flags r.stream.pending fileInfo flags.WithoutNull expr = Except.ok view ∧
        view.FileInfo.Path ≠ expr.str ∧
        sess'.stdinViewMap = sess.stdinViewMap.Store view.FileInfo.Path view ∧
        (v, some e) = sess'.stdinViewMap.Get { Literal := expr.str })) ∧
    (NewStdinEmptyError expr = GoError.domain (QueryError.StdinEmpty expr) ∧
      (∀ msg, NewIOError expr msg = GoError.domain (QueryError.IOError expr msg)) ∧
      (∀ path msg, NewDataParsingError expr path msg =
        GoError.domain (QueryError.DataParsing expr path msg))) := by
  have hclass : ∀ v e sess',
      sess.GetStdinView load flags fileInfo expr = some ((v, some e), sess') →
      (v = none ∧ sess'.stdinViewMap = sess.stdinViewMap ∧
        (e = NewStdinEmptyError expr ∨ (∃ msg, e = NewIOError expr msg) ∨
          (∃ msg, e = NewDataParsingError expr fileInfo.Path msg) ∨
          (∃ r q, sess.stdin = some r ∧ e = GoError.domain q ∧
            load flags r.stream.pending fileInfo flags.WithoutNull expr = Except.error e))) ∨
      (∃ r view, sess.CanReadStdin = true ∧ sess.stdin = some r ∧ r.stream.failure = none ∧
        load flags r.stream.pending fileInfo flags.WithoutNull expr = Except.ok view ∧
        view.FileInfo.Path ≠ expr.str ∧
        sess'.stdinViewMap = sess.stdinViewMap.Store view.FileInfo.Path view ∧
        (v, some e) = sess'.stdinViewMap.Get { Literal := expr.str }) := by
    intro v e sess' h
    cases hr : sess.CanReadStdin with
    | false =>
      simp [Session.GetStdinView, hc, hr] at h
      obtain ⟨⟨hv, he⟩, hs⟩ := h
      exact Or.inl ⟨hv.symm, by rw [← hs], Or.inl he.symm⟩
    | true =>
      cases hs : sess.stdin with
      | none => simp [Session.GetStdinView, hc, hr, hs] at h
      | some r =>
        cases hf : r.stream.failure with
        | some msg =>
          simp [Session.GetStdinView, hc, hr, hs, ReadCloser.ReadAll_fst, hf, GoError.Error] at h
          obtain ⟨⟨hv, he⟩, hs'⟩ := h
          exact Or.inl ⟨hv.symm, by rw [← hs'], Or.inr (Or.inl ⟨msg, he.symm⟩)⟩
        | none =>
          cases hl : load flags r.stream.pending fileInfo flags.WithoutNull expr with
          | ok view =>
            right
            simp only [Session.GetStdinView, hc, hr, hs, ReadCloser.ReadAll_fst, hf, hl,
              Bool.not_false, Bool.not_true, if_true, Bool.false_eq_true, if_false,
              Option.map_none', Option.some.injEq, Prod.mk.injEq] at h
            obtain ⟨hget, hs'⟩ := h
            refine ⟨r, view, rfl, rfl, hf, hl, ?_, by rw [← hs'], by rw [← hs', hget]⟩
            intro hp
            simp [ViewMap.Get, ViewMap.Store, hp] at hget
          | error err =>
            cases err with
            | plain msg =>
              simp [Session.GetStdinView, hc, hr, hs, ReadCloser.ReadAll_fst, hf, hl,
                GoError.Error] at h
              obtain ⟨⟨hv, he⟩, hs'⟩ := h
              exact Or.inl ⟨hv.symm, by rw [← hs'], Or.inr (Or.inr (Or.inl ⟨msg, he.symm⟩))⟩
            | domain q =>
              simp [Session.GetStdinView, hc, hr, hs, ReadCloser.ReadAll_fst, hf, hl] at h
              obtain ⟨⟨hv, he⟩, hs'⟩ := h
              refine Or.inl ⟨hv.symm, by rw [← hs'], Or.inr (Or.inr (Or.inr ⟨r, q, rfl, he.symm, ?_⟩))⟩
              rw [← he]
              exact hl
  refine ⟨?_, ?_, ?_, ?_, hclass, rfl, fun _ => rfl, fun _ _ => rfl⟩
  · intro r msg hr hs hf
    simp [Session.GetStdinView, hc, hr, hs, ReadCloser.ReadAll_fst, hf, GoError.Error]
  · intro r q hr hs hf hl
    simp [Session.GetStdinView, hc, hr, hs, ReadCloser.ReadAll_fst, hf, hl]
  · intro r msg hr hs hf hl
    simp [Session.GetStdinView, hc, hr, hs, ReadCloser.ReadAll_fst, hf, hl, GoError.Error]
  · intro v e sess' h hno
    rcases hclass v e sess' h with ⟨hv, hs, he⟩ | ⟨r, view, _, hs, hf, hl, _⟩
    · refine ⟨hv, ?_, hs⟩
      rcases he with he | ⟨msg, he⟩ | ⟨msg, he⟩ | ⟨r, q, _, he, _⟩
      · exact ⟨_, he⟩
      · exact ⟨_, he⟩
      · exact ⟨_, he⟩
      · exact ⟨q, he⟩
    · exact absurd hl (hno r view hs hf)

theorem getStdinView_failures_are_domain_errors_witness :
    bufferSession.stdinViewMap.Exists "stdin" = false ∧
      Session.GetStdinView
          { bufferSession with
            CanReadStdin := true
            stdin := some (ReadCloser.other { pending := [97], failure := none, reads := 0 }) }
          (fun _ _ _ _ _ => Except.error (GoError.plain "bad line")) initialFlags
          { Path := "stdin" } { str := "stdin" } =
        some ((none, some (NewDataParsingError { str := "stdin" } "stdin" "bad line")),
          { bufferSession with
            CanReadStdin := true
            stdin := some (ReadCloser.other { pending := [], failure := none, reads := 1 }) }) :=
  ⟨rfl,
    (getStdinView_failures_are_domain_errors
      { bufferSession with
        CanReadStdin := true
        stdin := some (ReadCloser.other { pending := [97], failure := none, reads := 0 }) }
      (fun _ _ _ _ _ => Except.error (GoError.plain "bad line")) initialFlags
      { Path := "stdin" } { str := "stdin" } rfl).2.2.1
      (ReadCloser.other { pending := [97], failure := none, reads := 0 }) "bad line"
      rfl rfl rfl rfl⟩

/-- C12 as stated fails when the view of the collaborator is filed under a
path other than the string form of the reference: on `pipedSession`
(`CanReadStdin` true, a readable stream, a collaborator that succeeds) the
first `GetStdinView` for the reference `stdin` stores the view under
`data.csv` and returns no view but the error of the lookup, and the second
call reads the stream again (two reads). -/
theorem getStdinView_not_idempotent_on_other_path :
    pipedSession.GetStdinView sampleLoader initialFlags { Path := "data.csv" }
        { str := "stdin" } =
      some ((none, some (tableNotLoadedError { Literal := "stdin" })),
        { pipedSession with
          stdin := some (ReadCloser.other { pending := [], failure := none, reads := 1 })
          stdinViewMap :=
            { entries := [("data.csv", { FileInfo := { Path := "data.csv" }, records := [] })] } }) ∧
      Session.GetStdinView
          { pipedSession with
            stdin := some (ReadCloser.other { pending := [], failure := none, reads := 1 })
            stdinViewMap :=
              { entries :=
                  [("data.csv", { FileInfo := { Path := "data.csv" }, records := [] })] } }
          sampleLoader initialFlags { Path := "data.csv" } { str := "stdin" } =
        some ((none, some (tableNotLoadedError { Literal := "stdin" })),
          { pipedSession with
            stdin := some (ReadCloser.other { pending := [], failure := none, reads := 2 })
            stdinViewMap :=
              { entries :=
                  [("data.csv", { FileInfo := { Path := "data.csv" }, records := [] })] } }) := by
  constructor <;> rfl

/-- C12, amended: for every session whose cache holds no entry for the
reference, with `CanReadStdin` true, a stdin stream that reads without error
and a collaborator that succeeds with a view whose path is the string form of
the reference, two `GetStdinView` calls in a row both return that view and no
error; the first reads the stream once, the second (whatever collaborator it
is given) leaves the session, and so the stream, the cache and the locker, as
it was.  And on every session whose cache holds an entry for the reference,
the call returns that entry and leaves the session as it was. -/
theorem getStdinView_idempotent (sess : Session) (load : ViewLoader) (flags : Flags)
    (fileInfo : FileInfo) (expr : Stdin) (r : ReadCloser) (view : View)
    (hc : sess.stdinViewMap.Exists expr.str = false) (hr : sess.CanReadStdin = true)
    (hs : sess.stdin = some r) (hf : r.stream.failure = none)
    (hl : load flags r.stream.pending fileInfo flags.WithoutNull expr = Except.ok view)
    (hp : view.FileInfo.Path = expr.str) :
    (∃ sess1, sess.GetStdinView load flags fileInfo expr = some ((some view, none), sess1) ∧
      (∀ load' : ViewLoader,
        sess1.GetStdinView load' flags fileInfo expr = some ((some view, none), sess1)) ∧
      sess1.stdin = some r.ReadAll.2 ∧
      r.ReadAll.2.stream.reads = r.stream.reads + 1 ∧
      sess1.stdinLocker = sess.stdinLocker) ∧
    (∀ (s : Session) (load' : ViewLoader), s.stdinViewMap.Exists expr.str = true →
      ∃ v, s.stdinViewMap.entries.lookup expr.str = some v ∧
        s.GetStdinView load' flags fileInfo expr = some ((some v, none), s)) := by
  constructor
  · refine ⟨{ sess with
        stdin := some r.ReadAll.2
        stdinViewMap := sess.stdinViewMap.Store view.FileInfo.Path view }, ?_, ?_, rfl, ?_, rfl⟩
    · simp [Session.GetStdinView, hc, hr, hs, ReadCloser.ReadAll_fst, hf, hl, ViewMap.Get,
        ViewMap.Store, hp]
    · intro load'
      simp [Session.GetStdinView, ViewMap.Exists, ViewMap.Get, ViewMap.Store, hp]
    · rw [ReadCloser.ReadAll_snd_stream]
  · intro s load' hex
    cases hlk : s.stdinViewMap.entries.lookup expr.str with
    | none => simp [ViewMap.Exists, hlk] at hex
    | some v =>
      refine ⟨v, rfl, ?_⟩
      simp [Session.GetStdinView, hex, ViewMap.Get, hlk]

theorem getStdinView_idempotent_witness :
    pipedSession.stdinViewMap.Exists "stdin" = false ∧
      ∃ sess1,
        pipedSession.GetStdinView
            (fun _ _ fi _ _ => Except.ok { FileInfo := fi, records := [] }) initialFlags
            { Path := "stdin" } { str := "stdin" } =
          some ((some { FileInfo := { Path := "stdin" }, records := [] }, none), sess1) :=
  ⟨rfl,
    (getStdinView_idempotent pipedSession
      (fun _ _ fi _ _ => Except.ok { FileInfo := fi, records := [] }) initialFlags
      { Path := "stdin" } { str := "stdin" }
      (ReadCloser.other
        { pending := [97, 44, 98, 10, 49, 44, 50, 10], failure := none, reads := 0 })
      { FileInfo := { Path := "stdin" }, records := [] }
      rfl rfl rfl rfl rfl rfl).1.imp fun _ h => h.1⟩

/-! ## Theorems: who changes the view cache -/

theorem lookup_filter_ne (l : List (String × View)) (k key : String) (h : key ≠ k) :
    (l.filter fun e => e.1 != k).lookup key = l.lookup key := by
  induction l with
  | nil => rfl
  | cons e l ih =>
    obtain ⟨a, v⟩ := e
    by_cases hak : a = k
    · subst hak
      have hne : (key == a) = false := by simpa using h
      simp [List.filter_cons, List.lookup_cons, hne, ih]
    · have hak' : (a != k) = true := by simpa using hak
      simp only [List.filter_cons, hak', if_true, List.lookup_cons, ih]

/-- Storing a view never removes an entry: every other key keeps its view, and
the key stored holds the new view. -/
theorem ViewMap.Store_lookup (m : ViewMap) (k : String) (v : View) (key : String) :
    (m.Store k v).entries.lookup key = if key = k then some v else m.entries.lookup key := by
  by_cases h : key = k
  · subst h
    simp [ViewMap.Store, List.lookup_cons]
  · have hne : (key == k) = false := by simpa using h
    simp [ViewMap.Store, List.lookup_cons, hne, h, lookup_filter_ne _ _ _ h]

/-- C15 as stated fails: `updateStdinView`, a method of `Session` other than
`GetStdinView`, adds an entry to the view cache. -/
theorem updateStdinView_adds_entry :
    bufferSession.stdinViewMap.Exists "data.csv" = false ∧
      (bufferSession.updateStdinView
        { FileInfo := { Path := "data.csv" }, records := [] }).stdinViewMap.Exists
          "data.csv" = true ∧
      (bufferSession.updateStdinView
        { FileInfo := { Path := "data.csv" }, records := [] }).stdinViewMap ≠
          bufferSession.stdinViewMap := by
  refine ⟨rfl, rfl, ?_⟩
  decide

/-- C15, amended: entries are added to the view cache only by `GetStdinView`
and by `updateStdinView`, both of which store one view under its path and keep
every other entry; entries are removed only by `SetStdinContext` and
`SetStdin`, which on success leave the cache empty and on failure leave it as
it was; the output setters and the four write methods leave the cache exactly
as it was (the accessors return a value and no session). -/
theorem session_cache_changes (sess : Session) :
    (∀ w, (sess.SetStdout w).stdinViewMap = sess.stdinViewMap) ∧
    (∀ w, (sess.SetStderr w).stdinViewMap = sess.stdinViewMap) ∧
    (∀ w, (sess.SetOutFile w).stdinViewMap = sess.stdinViewMap) ∧
    (∀ t, (sess.SetTerminal t).stdinViewMap = sess.stdinViewMap) ∧
    (∀ s, (sess.WriteToStdout s).2.stdinViewMap = sess.stdinViewMap) ∧
    (∀ s, (sess.WriteToStdoutWithLineBreak s).2.stdinViewMap = sess.stdinViewMap) ∧
    (∀ s, (sess.WriteToStderr s).2.stdinViewMap = sess.stdinViewMap) ∧
    (∀ s, (sess.WriteToStderrWithLineBreak s).2.stdinViewMap = sess.stdinViewMap) ∧
    (∀ entry waits r res sess', sess.SetStdinContext entry waits r = some (res, sess') →
      (res ≠ none → sess'.stdinViewMap = sess.stdinViewMap) ∧
      (res = none → sess'.stdinViewMap.entries = [])) ∧
    (∀ others r res sess', sess.SetStdin others r = some (res, sess') →
      (res ≠ none → sess'.stdinViewMap = sess.stdinViewMap) ∧
      (res = none → sess'.stdinViewMap.entries = [])) ∧
    (∀ load flags fileInfo expr res sess',
      sess.GetStdinView load flags fileInfo expr = some (res, sess') →
      sess'.stdinViewMap = sess.stdinViewMap ∨
        ∃ view, sess'.stdinViewMap = sess.stdinViewMap.Store view.FileInfo.Path view) ∧
    (∀ view, (sess.updateStdinView view).stdinViewMap =
      sess.stdinViewMap.Store view.FileInfo.Path view) ∧
    (∀ (view : View) (key : String), key ≠ view.FileInfo.Path →
      (sess.stdinViewMap.Store view.FileInfo.Path view).entries.lookup key =
        sess.stdinViewMap.entries.lookup key) := by
  have hout : ∀ s, (sess.WriteToStdout s).2.stdinViewMap = sess.stdinViewMap := by
    intro s
    unfold Session.WriteToStdout
    split
    · rfl
    · split <;> rfl
  have herr : ∀ s, (sess.WriteToStderr s).2.stdinViewMap = sess.stdinViewMap := by
    intro s
    unfold Session.WriteToStderr
    split
    · rfl
    · split <;> rfl
  have hset : ∀ entry waits r res sess',
      sess.SetStdinContext entry waits r = some (res, sess') →
      (res ≠ none → sess'.stdinViewMap = sess.stdinViewMap) ∧
      (res = none → sess'.stdinViewMap.entries = []) := by
    intro entry waits r res sess' h
    unfold Session.SetStdinContext at h
    cases hlock : sess.stdinLocker.LockContext entry waits with
    | none => simp [hlock] at h
    | some lres =>
      obtain ⟨oerr, cl⟩ := lres
      cases oerr with
      | none =>
        have hl := LockContext_granted_locked _ _ _ _ hlock
        simp only [hlock, StdinLocker.Unlock, hl, if_true, Option.some.injEq,
          Prod.mk.injEq] at h
        obtain ⟨hres, hs⟩ := h
        subst hres
        subst hs
        exact ⟨fun hne => absurd rfl hne, fun _ => rfl⟩
      | some e =>
        simp only [hlock, Option.some.injEq, Prod.mk.injEq] at h
        obtain ⟨hres, hs⟩ := h
        subst hres
        subst hs
        exact ⟨fun _ => rfl, fun hn => by simp at hn⟩
  refine ⟨fun _ => rfl, fun _ => rfl, fun _ => rfl, fun _ => rfl, hout, ?_, herr, ?_, hset,
    fun others r res sess' h => hset _ _ r res sess' h, ?_, fun _ => rfl, ?_⟩
  · intro s
    unfold Session.WriteToStdoutWithLineBreak
    split <;> exact hout _
  · intro s
    unfold Session.WriteToStderrWithLineBreak
    split <;> exact herr _
  · intro load flags fileInfo expr res sess' h
    unfold Session.GetStdinView at h
    split at h
    · split at h
      · simp only [Option.some.injEq, Prod.mk.injEq] at h
        exact Or.inl (by rw [← h.2])
      · split at h
        · simp at h
        · split at h
          · simp only [Option.some.injEq, Prod.mk.injEq] at h
            exact Or.inl (by rw [← h.2])
          · split at h
            · split at h
              · simp only [Option.some.injEq, Prod.mk.injEq] at h
                exact Or.inl (by rw [← h.2])
              · simp only [Option.some.injEq, Prod.mk.injEq] at h
                exact Or.inl (by rw [← h.2])
            · rename_i view _
              simp only [Option.some.injEq, Prod.mk.injEq] at h
              exact Or.inr ⟨view, by rw [← h.2]⟩
    · simp only [Option.some.injEq, Prod.mk.injEq] at h
      exact Or.inl (by rw [← h.2])
  · intro view key hne
    rw [ViewMap.Store_lookup]
    simp [hne]

/-! ## Theorems: flag setters -/

theorem uint8_le_iff_toNat (a b : UInt8) : a ≤ b ↔ a.toNat ≤ b.toNat := by
  rw [UInt8.le_def, BitVec.le_def]; rfl

theorem uint8_eq_iff_toNat (a b : UInt8) : a = b ↔ a.toNat = b.toNat :=
  ⟨fun h => by rw [h], UInt8.toNat.inj⟩

theorem upperByte_toNat (c : UInt8) :
    (upperByte c).toNat = if 97 ≤ c.toNat ∧ c.toNat ≤ 122 then c.toNat - 32 else c.toNat := by
  unfold upperByte
  simp only [uint8_le_iff_toNat]
  split
  · rename_i h
    have h97 : (97 : UInt8).toNat = 97 := rfl
    have h122 : (122 : UInt8).toNat = 122 := rfl
    rw [h97, h122] at h
    have : (32 : UInt8) ≤ c := by
      rw [uint8_le_iff_toNat]
      show 32 ≤ c.toNat
      omega
    rw [UInt8.toNat_sub_of_le _ _ this, if_pos (by simpa [h97, h122] using h)]
    rfl
  · rename_i h
    have h97 : (97 : UInt8).toNat = 97 := rfl
    have h122 : (122 : UInt8).toNat = 122 := rfl
    rw [h97, h122] at h
    rw [if_neg h]

theorem add32_toNat (u : UInt8) (h : u.toNat ≤ 90) : (u + 32).toNat = u.toNat + 32 := by
  have : (u + 32).toNat = (u.toNat + 32) % 256 := by
    rw [UInt8.add_def]
    show (u.toBitVec + (32 : UInt8).toBitVec).toNat = _
    rw [BitVec.toNat_add]
    rfl
  rw [this]
  omega

theorem upperByte_eq_iff (c u : UInt8) (hu : isUpperStable u) :
    upperByte c = u ↔ (c = u ∨ ((65 ≤ u ∧ u ≤ 90) ∧ c = u + 32)) := by
  obtain ⟨hu1, hu2⟩ := hu
  have h65 : (65 : UInt8).toNat = 65 := rfl
  have h90 : (90 : UInt8).toNat = 90 := rfl
  rw [uint8_eq_iff_toNat, upperByte_toNat, uint8_eq_iff_toNat c u, uint8_le_iff_toNat,
    uint8_le_iff_toNat, h65, h90]
  constructor
  · intro h
    split at h
    · right
      refine ⟨by omega, ?_⟩
      rw [uint8_eq_iff_toNat, add32_toNat u (by omega)]
      omega
    · left; exact h
  · rintro (h | ⟨h1, h2⟩)
    · rw [if_neg (by rw [h]; exact hu2)]
      exact h
    · rw [uint8_eq_iff_toNat, add32_toNat u (by omega)] at h2
      rw [if_pos (by omega)]
      omega

theorem stringsToUpper_eq_nil (s : GoString) : stringsToUpper s = [] ↔ s = [] := by
  match s with
  | [] => simp [stringsToUpper]
  | [c] => simp [stringsToUpper]
  | c :: d :: rest =>
    unfold stringsToUpper
    split
    · simp
    · split <;> simp


theorem prefix_and_drop (sp s : GoString) (P : GoString → Bool) :
    (sp.isPrefixOf s && P (s.drop sp.length)) = true ↔ ∃ rest, s = sp ++ rest ∧ P rest = true := by
  constructor
  · intro h
    rw [Bool.and_eq_true, List.isPrefixOf_iff_prefix] at h
    obtain ⟨⟨t, rfl⟩, h2⟩ := h
    exact ⟨t, rfl, by simpa using h2⟩
  · rintro ⟨rest, rfl, h⟩
    rw [Bool.and_eq_true, List.isPrefixOf_iff_prefix]
    exact ⟨List.prefix_append _ _, by simpa using h⟩

theorem spellsWord_cons (u : UInt8) (word s : GoString) :
    spellsWord (u :: word) s = true ↔
      ((∃ rest, s = u :: rest ∧ spellsWord word rest = true) ∨
        ((65 ≤ u ∧ u ≤ 90) ∧ ∃ rest, s = (u + 32) :: rest ∧ spellsWord word rest = true) ∨
        (u = 83 ∧ ∃ rest, s = 197 :: 191 :: rest ∧ spellsWord word rest = true) ∨
        (u = 73 ∧ ∃ rest, s = 196 :: 177 :: rest ∧ spellsWord word rest = true)) := by
  rw [spellsWord, List.any_eq_true]
  constructor
  · rintro ⟨sp, hmem, h⟩
    rw [prefix_and_drop] at h
    obtain ⟨rest, rfl, hr⟩ := h
    unfold letterSpellings at hmem
    rw [List.mem_append, List.mem_append, List.mem_append] at hmem
    rcases hmem with ((h | h) | h) | h
    · rw [List.mem_singleton] at h
      subst h
      exact Or.inl ⟨rest, rfl, hr⟩
    · split at h
      · rename_i hle
        rw [List.mem_singleton] at h
        subst h
        exact Or.inr (Or.inl ⟨hle, rest, rfl, hr⟩)
      · exact absurd h (List.not_mem_nil _)
    · split at h
      · rename_i hu
        rw [List.mem_singleton] at h
        subst h
        exact Or.inr (Or.inr (Or.inl ⟨hu, rest, rfl, hr⟩))
      · exact absurd h (List.not_mem_nil _)
    · split at h
      · rename_i hu
        rw [List.mem_singleton] at h
        subst h
        exact Or.inr (Or.inr (Or.inr ⟨hu, rest, rfl, hr⟩))
      · exact absurd h (List.not_mem_nil _)
  · unfold letterSpellings
    rintro (⟨rest, rfl, hr⟩ | ⟨hle, rest, rfl, hr⟩ | ⟨hu, rest, rfl, hr⟩ | ⟨hu, rest, rfl, hr⟩)
    · refine ⟨[u], ?_, (prefix_and_drop _ _ _).mpr ⟨rest, rfl, hr⟩⟩
      simp
    · refine ⟨[u + 32], ?_, (prefix_and_drop _ _ _).mpr ⟨rest, rfl, hr⟩⟩
      rw [if_pos hle]
      simp
    · refine ⟨[197, 191], ?_, (prefix_and_drop _ _ _).mpr ⟨rest, rfl, hr⟩⟩
      rw [if_pos hu]
      simp
    · refine ⟨[196, 177], ?_, (prefix_and_drop _ _ _).mpr ⟨rest, rfl, hr⟩⟩
      rw [if_pos hu]
      simp

theorem stringsToUpper_eq_iff_spellsWord (word s : GoString)
    (hw : ∀ u, u ∈ word → isUpperStable u) :
    stringsToUpper s = word ↔ spellsWord word s = true := by
  induction word generalizing s with
  | nil =>
    rw [stringsToUpper_eq_nil]
    cases s <;> simp [spellsWord]
  | cons u word ih =>
    have hu : isUpperStable u := hw u (List.mem_cons_self _ _)
    have ih' : ∀ x, spellsWord word x = true ↔ stringsToUpper x = word :=
      fun x => (ih x (fun v hv => hw v (List.mem_cons_of_mem _ hv))).symm
    have hu197 : u ≠ 197 := by
      intro h; rw [h] at hu; exact absurd hu.1 (by decide)
    have hu196 : u ≠ 196 := by
      intro h; rw [h] at hu; exact absurd hu.1 (by decide)
    have h32a : u + 32 = 197 → ¬ (65 ≤ u ∧ u ≤ 90) := by
      intro h hle
      rw [uint8_le_iff_toNat, uint8_le_iff_toNat] at hle
      have h90 : (90 : UInt8).toNat = 90 := rfl
      have := add32_toNat u (by omega)
      rw [h] at this
      have h197 : (197 : UInt8).toNat = 197 := rfl
      omega
    have h32b : u + 32 = 196 → ¬ (65 ≤ u ∧ u ≤ 90) := by
      intro h hle
      rw [uint8_le_iff_toNat, uint8_le_iff_toNat] at hle
      have h90 : (90 : UInt8).toNat = 90 := rfl
      have := add32_toNat u (by omega)
      rw [h] at this
      have h196 : (196 : UInt8).toNat = 196 := rfl
      omega
    rw [spellsWord_cons]
    simp only [ih']
    rcases s with _ | ⟨c, _ | ⟨d, rest⟩⟩
    · simp [stringsToUpper]
    · have hL : stringsToUpper [c] = u :: word ↔
          ((c = u ∨ ((65 ≤ u ∧ u ≤ 90) ∧ c = u + 32)) ∧ stringsToUpper [] = word) := by
        rw [← upperByte_eq_iff c u hu]
        simp only [stringsToUpper, List.cons.injEq]
      rw [hL]
      constructor
      · rintro ⟨hc | ⟨hle, hc⟩, hw'⟩
        · exact Or.inl ⟨[], by rw [hc], hw'⟩
        · exact Or.inr (Or.inl ⟨hle, [], by rw [hc], hw'⟩)
      · rintro (⟨r, h, hr⟩ | ⟨hle, r, h, hr⟩ | ⟨_, r, h, hr⟩ | ⟨_, r, h, hr⟩)
        · obtain ⟨h1, h2⟩ := List.cons.inj h
          subst h2
          exact ⟨Or.inl h1, hr⟩
        · obtain ⟨h1, h2⟩ := List.cons.inj h
          subst h2
          exact ⟨Or.inr ⟨hle, h1⟩, hr⟩
        · exact absurd (List.cons.inj h).2 (by simp)
        · exact absurd (List.cons.inj h).2 (by simp)
    · by_cases h1 : c = 197 ∧ d = 191
      · obtain ⟨rfl, rfl⟩ := h1
        have hL : stringsToUpper (197 :: 191 :: rest) = u :: word ↔
            (83 = u ∧ stringsToUpper rest = word) := by
          simp only [stringsToUpper, and_self, if_true, List.cons.injEq]
        rw [hL]
        constructor
        · rintro ⟨hu', hw'⟩
          exact Or.inr (Or.inr (Or.inl ⟨hu'.symm, rest, rfl, hw'⟩))
        · rintro (⟨r, h, hr⟩ | ⟨hle, r, h, hr⟩ | ⟨hu', r, h, hr⟩ | ⟨hu', r, h, hr⟩)
          · exact absurd (List.cons.inj h).1.symm hu197
          · exact absurd hle (h32a (List.cons.inj h).1.symm)
          · obtain ⟨_, h2⟩ := List.cons.inj h
            obtain ⟨_, h3⟩ := List.cons.inj h2
            subst h3
            exact ⟨hu'.symm, hr⟩
          · exact absurd (List.cons.inj h).1 (by decide)
      · by_cases h2 : c = 196 ∧ d = 177
        · obtain ⟨rfl, rfl⟩ := h2
          have hL : stringsToUpper (196 :: 177 :: rest) = u :: word ↔
              (73 = u ∧ stringsToUpper rest = word) := by
            simp only [stringsToUpper, h1, if_false, and_self, if_true, List.cons.injEq]
          rw [hL]
          constructor
          · rintro ⟨hu', hw'⟩
            exact Or.inr (Or.inr (Or.inr ⟨hu'.symm, rest, rfl, hw'⟩))
          · rintro (⟨r, h, hr⟩ | ⟨hle, r, h, hr⟩ | ⟨hu', r, h, hr⟩ | ⟨hu', r, h, hr⟩)
            · exact absurd (List.cons.inj h).1.symm hu196
            · exact absurd hle (h32b (List.cons.inj h).1.symm)
            · exact absurd (List.cons.inj h).1 (by decide)
            · obtain ⟨_, h2⟩ := List.cons.inj h
              obtain ⟨_, h3⟩ := List.cons.inj h2
              subst h3
              exact ⟨hu'.symm, hr⟩
        · have hL : stringsToUpper (c :: d :: rest) = u :: word ↔
              ((c = u ∨ ((65 ≤ u ∧ u ≤ 90) ∧ c = u + 32)) ∧
                stringsToUpper (d :: rest) = word) := by
            rw [← upperByte_eq_iff c u hu]
            simp only [stringsToUpper, h1, h2, if_false, List.cons.injEq]
          rw [hL]
          constructor
          · rintro ⟨hc | ⟨hle, hc⟩, hw'⟩
            · exact Or.inl ⟨d :: rest, by rw [hc], hw'⟩
            · exact Or.inr (Or.inl ⟨hle, d :: rest, by rw [hc], hw'⟩)
          · rintro (⟨r, h, hr⟩ | ⟨hle, r, h, hr⟩ | ⟨_, r, h, hr⟩ | ⟨_, r, h, hr⟩)
            · obtain ⟨hc, hd⟩ := List.cons.inj h
              subst hd
              exact ⟨Or.inl hc, hr⟩
            · obtain ⟨hc, hd⟩ := List.cons.inj h
              subst hd
              exact ⟨Or.inr ⟨hle, hc⟩, hr⟩
            · obtain ⟨hc, hd⟩ := List.cons.inj h
              exact absurd ⟨hc, (List.cons.inj hd).1⟩ h1
            · obtain ⟨hc, hd⟩ := List.cons.inj h
              exact absurd ⟨hc, (List.cons.inj hd).1⟩ h2

/-- The test `stringsToUpper s = word` of the setters, in the words of the
specification, for a word given as a list of bytes that are upper-stable. -/
theorem spellsWord_eq_false_iff (word s : GoString)
    (hw : ∀ u, u ∈ word → isUpperStable u) :
    spellsWord word s = false ↔ stringsToUpper s ≠ word := by
  rw [Bool.eq_false_iff, Ne, Ne, stringsToUpper_eq_iff_spellsWord word s hw]

theorem plainVariant_cons (u : UInt8) (word s : GoString) :
    plainVariant (u :: word) s = true ↔
      ∃ c rest, s = c :: rest ∧ (c = u ∨ ((65 ≤ u ∧ u ≤ 90) ∧ c = u + 32)) ∧
        plainVariant word rest = true := by
  cases s with
  | nil => simp [plainVariant]
  | cons c rest =>
    simp only [plainVariant, Bool.and_eq_true, Bool.or_eq_true, beq_iff_eq, decide_eq_true_eq]
    constructor
    · rintro ⟨h1, h2⟩
      exact ⟨c, rest, rfl, h1, h2⟩
    · rintro ⟨c', rest', heq, h1, h2⟩
      obtain ⟨hc, hrest⟩ := List.cons.inj heq
      subst hc
      subst hrest
      exact ⟨h1, h2⟩

theorem plainVariant_nil (s : GoString) : plainVariant [] s = true ↔ s = [] := by
  cases s <;> simp [plainVariant]

/-- Every plain case variant of a word is among the spellings the setters
accept. -/
theorem spellsWord_of_plainVariant (word s : GoString) (h : plainVariant word s = true) :
    spellsWord word s = true := by
  induction word generalizing s with
  | nil =>
    rw [plainVariant_nil] at h
    subst h
    rfl
  | cons u word ih =>
    rw [plainVariant_cons] at h
    obtain ⟨c, rest, rfl, hc | ⟨hle, hc⟩, hr⟩ := h
    · rw [spellsWord_cons]
      exact Or.inl ⟨rest, by rw [hc], ih rest hr⟩
    · rw [spellsWord_cons]
      exact Or.inr (Or.inl ⟨hle, rest, by rw [hc], ih rest hr⟩)

/-- On a text of ASCII bytes the accepted spellings are the plain case
variants. -/
theorem plainVariant_of_spellsWord (word s : GoString) (ha : ∀ c, c ∈ s → c.toNat < 128)
    (h : spellsWord word s = true) : plainVariant word s = true := by
  induction word generalizing s with
  | nil =>
    cases s with
    | nil => rfl
    | cons c t => simp [spellsWord] at h
  | cons u word ih =>
    rw [spellsWord_cons] at h
    rw [plainVariant_cons]
    rcases h with ⟨rest, rfl, hr⟩ | ⟨hle, rest, rfl, hr⟩ | ⟨_, rest, rfl, hr⟩ | ⟨_, rest, rfl, hr⟩
    · exact ⟨u, rest, rfl, Or.inl rfl,
        ih rest (fun c hc => ha c (List.mem_cons_of_mem _ hc)) hr⟩
    · exact ⟨u + 32, rest, rfl, Or.inr ⟨hle, rfl⟩,
        ih rest (fun c hc => ha c (List.mem_cons_of_mem _ hc)) hr⟩
    · exact absurd (ha 197 (List.mem_cons_self _ _)) (by decide)
    · exact absurd (ha 196 (List.mem_cons_self _ _)) (by decide)

theorem plainVariant_eq_false_iff (word s : GoString)
    (hw : ∀ u, u ∈ word → isUpperStable u) (ha : ∀ c, c ∈ s → c.toNat < 128) :
    plainVariant word s = false ↔ stringsToUpper s ≠ word := by
  rw [← spellsWord_eq_false_iff word s hw, Bool.eq_false_iff, Bool.eq_false_iff]
  exact not_congr ⟨spellsWord_of_plainVariant word s, plainVariant_of_spellsWord word s ha⟩

/-! ### The extension of a path -/

theorem extFromEnd_found (l rest acc : GoString) (h : ∀ c, c ∈ l → c ≠ 46 ∧ c ≠ 47) :
    extFromEnd (l ++ 46 :: rest) acc = 46 :: (l.reverse ++ acc) := by
  induction l generalizing acc with
  | nil => simp [extFromEnd]
  | cons c l ih =>
    have hc := h c (List.mem_cons_self _ _)
    rw [List.cons_append, extFromEnd, if_neg hc.2, if_neg hc.1,
      ih (c :: acc) (fun d hd => h d (List.mem_cons_of_mem _ hd))]
    simp

/-- The function `path.Ext` on a path that ends with a dot followed by bytes
that are neither a dot nor a slash returns that ending. -/
theorem pathExt_append_dot (base t : GoString) (h : ∀ c, c ∈ t → c ≠ 46 ∧ c ≠ 47) :
    pathExt (base ++ 46 :: t) = 46 :: t := by
  unfold pathExt
  have hrev : (base ++ 46 :: t).reverse = t.reverse ++ 46 :: base.reverse := by simp
  rw [hrev, extFromEnd_found _ _ _ (fun c hc => h c (List.mem_reverse.mp hc))]
  simp

theorem extFromEnd_nonempty (l acc e : GoString) (h : extFromEnd l acc = e) (he : e ≠ []) :
    ∃ l1 rest, l = l1 ++ 46 :: rest ∧ (∀ c, c ∈ l1 → c ≠ 46 ∧ c ≠ 47) ∧
      e = 46 :: (l1.reverse ++ acc) := by
  induction l generalizing acc with
  | nil =>
    rw [extFromEnd] at h
    exact absurd h.symm he
  | cons c l ih =>
    rw [extFromEnd] at h
    by_cases h47 : c = 47
    · rw [if_pos h47] at h
      exact absurd h.symm he
    · rw [if_neg h47] at h
      by_cases h46 : c = 46
      · rw [if_pos h46] at h
        subst h46
        exact ⟨[], l, rfl, by simp, by simp [← h]⟩
      · rw [if_neg h46] at h
        obtain ⟨l1, rest, hl, hfree, hres⟩ := ih (c :: acc) h
        refine ⟨c :: l1, rest, by rw [hl]; rfl, ?_, by rw [hres]; simp⟩
        intro d hd
        rcases List.mem_cons.mp hd with rfl | hd
        · exact ⟨h46, h47⟩
        · exact hfree d hd

/-- A non-empty result of `path.Ext` is the ending of the path that starts at
its last dot, and no slash follows that dot. -/
theorem pathExt_nonempty (p e : GoString) (h : pathExt p = e) (he : e ≠ []) :
    ∃ base t, p = base ++ e ∧ e = 46 :: t ∧ ∀ c, c ∈ t → c ≠ 46 ∧ c ≠ 47 := by
  unfold pathExt at h
  obtain ⟨l1, rest, hl, hfree, hres⟩ := extFromEnd_nonempty _ _ _ h he
  refine ⟨rest.reverse, l1.reverse, ?_, by simpa using hres, ?_⟩
  · have : p = (l1 ++ 46 :: rest).reverse := by rw [← hl, List.reverse_reverse]
    rw [this, hres]
    simp
  · intro c hc
    exact hfree c (List.mem_reverse.mp hc)

theorem spellsWord_no_dot_slash (word t : GoString)
    (hW : ∀ u, u ∈ word → 65 ≤ u.toNat ∧ u.toNat ≤ 90) (h : spellsWord word t = true) :
    ∀ c, c ∈ t → c ≠ 46 ∧ c ≠ 47 := by
  induction word generalizing t with
  | nil =>
    cases t with
    | nil => simp
    | cons c t => simp [spellsWord] at h
  | cons u word ih =>
    have hu := hW u (List.mem_cons_self _ _)
    have ih' := fun r hr => ih r (fun v hv => hW v (List.mem_cons_of_mem _ hv)) hr
    have hne : ∀ x : UInt8, 65 ≤ x.toNat → x ≠ 46 ∧ x ≠ 47 := by
      intro x hx
      constructor
      · intro h46
        rw [h46] at hx
        exact absurd hx (by decide)
      · intro h47
        rw [h47] at hx
        exact absurd hx (by decide)
    rw [spellsWord_cons] at h
    intro c hc
    rcases h with ⟨rest, rfl, hr⟩ | ⟨hle, rest, rfl, hr⟩ | ⟨_, rest, rfl, hr⟩ | ⟨_, rest, rfl, hr⟩
    · rcases List.mem_cons.mp hc with rfl | hc
      · exact hne _ hu.1
      · exact ih' rest hr c hc
    · rcases List.mem_cons.mp hc with rfl | hc
      · exact hne _ (by rw [add32_toNat u hu.2]; omega)
      · exact ih' rest hr c hc
    · rcases List.mem_cons.mp hc with rfl | hc
      · exact ⟨by decide, by decide⟩
      · rcases List.mem_cons.mp hc with rfl | hc
        · exact ⟨by decide, by decide⟩
        · exact ih' rest hr c hc
    · rcases List.mem_cons.mp hc with rfl | hc
      · exact ⟨by decide, by decide⟩
      · rcases List.mem_cons.mp hc with rfl | hc
        · exact ⟨by decide, by decide⟩
        · exact ih' rest hr c hc

/-- The extension of a path spells a dot and a word of capital letters exactly
when the path ends with such a spelling. -/
theorem spellsWord_pathExt_iff (word p : GoString)
    (hW : ∀ u, u ∈ word → 65 ≤ u.toNat ∧ u.toNat ≤ 90) :
    spellsWord (46 :: word) (pathExt p) = true ↔
      ∃ base e, p = base ++ e ∧ spellsWord (46 :: word) e = true := by
  constructor
  · intro h
    have he : pathExt p ≠ [] := by
      intro h0
      rw [h0, spellsWord_cons] at h
      simp at h
    obtain ⟨base, t, hp, _, _⟩ := pathExt_nonempty p _ rfl he
    exact ⟨base, pathExt p, hp, h⟩
  · rintro ⟨base, e, rfl, h⟩
    have h' := h
    rw [spellsWord_cons] at h'
    rcases h' with ⟨rest, rfl, hr⟩ | ⟨hle, _⟩ | ⟨h83, _⟩ | ⟨h73, _⟩
    · rw [pathExt_append_dot base rest (spellsWord_no_dot_slash word rest hW hr)]
      exact h
    · exact absurd hle.1 (by decide)
    · exact absurd h83 (by decide)
    · exact absurd h73 (by decide)

/-- The cases of `SetFormat` in terms of the accepted spellings and of
`path.Ext`. -/
theorem SetFormat_cases (f : Flags) (s : GoString) :
    ((SetFormat f s).1.isSome = true ↔
      (s ≠ [] ∧ spellsWord [67, 83, 86] s = false ∧ spellsWord [84, 83, 86] s = false ∧
        spellsWord [74, 83, 79, 78] s = false ∧ spellsWord [84, 69, 88, 84] s = false)) ∧
    (spellsWord [67, 83, 86] s = true →
      SetFormat f s = (none, { f with Format := Format.CSV })) ∧
    (spellsWord [84, 83, 86] s = true →
      SetFormat f s = (none, { f with Format := Format.TSV })) ∧
    (spellsWord [74, 83, 79, 78] s = true →
      SetFormat f s = (none, { f with Format := Format.JSON })) ∧
    (spellsWord [84, 69, 88, 84] s = true →
      SetFormat f s = (none, { f with Format := Format.TEXT })) ∧
    (s = [] → spellsWord [46, 67, 83, 86] (pathExt f.OutFile) = true →
      SetFormat f s = (none, { f with Format := Format.CSV })) ∧
    (s = [] → spellsWord [46, 84, 83, 86] (pathExt f.OutFile) = true →
      SetFormat f s = (none, { f with Format := Format.TSV })) ∧
    (s = [] → spellsWord [46, 74, 83, 79, 78] (pathExt f.OutFile) = true →
      SetFormat f s = (none, { f with Format := Format.JSON })) ∧
    (s = [] → spellsWord [46, 67, 83, 86] (pathExt f.OutFile) = false →
      spellsWord [46, 84, 83, 86] (pathExt f.OutFile) = false →
      spellsWord [46, 74, 83, 79, 78] (pathExt f.OutFile) = false →
      SetFormat f s = (none, f)) ∧
    (SetFormat f s).2 = { f with Format := (SetFormat f s).2.Format } := by
  have hnil := stringsToUpper_eq_nil s
  simp only [spellsWord_eq_false_iff _ _ (by decide : ∀ u, u ∈ [67, 83, 86] → isUpperStable u),
    spellsWord_eq_false_iff _ _ (by decide : ∀ u, u ∈ [84, 83, 86] → isUpperStable u),
    spellsWord_eq_false_iff _ _ (by decide : ∀ u, u ∈ [74, 83, 79, 78] → isUpperStable u),
    spellsWord_eq_false_iff _ _ (by decide : ∀ u, u ∈ [84, 69, 88, 84] → isUpperStable u),
    spellsWord_eq_false_iff _ _ (by decide : ∀ u, u ∈ [46, 67, 83, 86] → isUpperStable u),
    spellsWord_eq_false_iff _ _ (by decide : ∀ u, u ∈ [46, 84, 83, 86] → isUpperStable u),
    spellsWord_eq_false_iff _ _ (by decide : ∀ u, u ∈ [46, 74, 83, 79, 78] → isUpperStable u),
    ← stringsToUpper_eq_iff_spellsWord _ _
      (by decide : ∀ u, u ∈ [67, 83, 86] → isUpperStable u),
    ← stringsToUpper_eq_iff_spellsWord _ _
      (by decide : ∀ u, u ∈ [84, 83, 86] → isUpperStable u),
    ← stringsToUpper_eq_iff_spellsWord _ _
      (by decide : ∀ u, u ∈ [74, 83, 79, 78] → isUpperStable u),
    ← stringsToUpper_eq_iff_spellsWord _ _
      (by decide : ∀ u, u ∈ [84, 69, 88, 84] → isUpperStable u),
    ← stringsToUpper_eq_iff_spellsWord _ _
      (by decide : ∀ u, u ∈ [46, 67, 83, 86] → isUpperStable u),
    ← stringsToUpper_eq_iff_spellsWord _ _
      (by decide : ∀ u, u ∈ [46, 84, 83, 86] → isUpperStable u),
    ← stringsToUpper_eq_iff_spellsWord _ _
      (by decide : ∀ u, u ∈ [46, 74, 83, 79, 78] → isUpperStable u)]
  generalize hU : stringsToUpper s = U at hnil ⊢
  generalize hE : stringsToUpper (pathExt f.OutFile) = E
  have hsU : ∀ g : Flags, SetFormat g s =
      (if U = [] then
        if stringsToUpper (pathExt g.OutFile) = [46, 67, 83, 86] then
          (none, { g with Format := Format.CSV })
        else if stringsToUpper (pathExt g.OutFile) = [46, 84, 83, 86] then
          (none, { g with Format := Format.TSV })
        else if stringsToUpper (pathExt g.OutFile) = [46, 74, 83, 79, 78] then
          (none, { g with Format := Format.JSON })
        else (none, g)
      else if U = [67, 83, 86] then (none, { g with Format := Format.CSV })
      else if U = [84, 83, 86] then (none, { g with Format := Format.TSV })
      else if U = [74, 83, 79, 78] then (none, { g with Format := Format.JSON })
      else if U = [84, 69, 88, 84] then (none, { g with Format := Format.TEXT })
      else (some (GoError.plain "format must be one of csv|tsv|json|text"), g)) := by
    intro g
    rw [← hU]
    rfl
  rw [hsU f, hE]
  by_cases h0 : U = []
  · have hs : s = [] := hnil.mp h0
    subst h0
    by_cases e1 : E = [46, 67, 83, 86]
    · subst e1
      simp [hs]
    · by_cases e2 : E = [46, 84, 83, 86]
      · subst e2
        simp [hs]
      · by_cases e3 : E = [46, 74, 83, 79, 78]
        · subst e3
          simp [hs]
        · simp [hs, e1, e2, e3]
  · have hs : s ≠ [] := fun h => h0 (hnil.mpr h)
    by_cases u1 : U = [67, 83, 86]
    · subst u1
      simp [hs]
    · by_cases u2 : U = [84, 83, 86]
      · subst u2
        simp [hs]
      · by_cases u3 : U = [74, 83, 79, 78]
        · subst u3
          simp [hs]
        · by_cases u4 : U = [84, 69, 88, 84]
          · subst u4
            simp [hs]
          · simp [hs, h0, u1, u2, u3, u4]

/-- C18 as stated fails on the four bytes `c`, U+017F (long s), `v`: the text
is not empty and is no plain case variant of `CSV`, `TSV`, `JSON` or `TEXT`,
yet `SetFormat` returns no error and sets the format to CSV, because
`strings.ToUpper` maps the long s to `S`. -/
theorem setFormat_accepts_long_s :
    ([99, 197, 191, 118] : GoString) ≠ [] ∧
      plainVariant [67, 83, 86] [99, 197, 191, 118] = false ∧
      plainVariant [84, 83, 86] [99, 197, 191, 118] = false ∧
      plainVariant [74, 83, 79, 78] [99, 197, 191, 118] = false ∧
      plainVariant [84, 69, 88, 84] [99, 197, 191, 118] = false ∧
      SetFormat initialFlags [99, 197, 191, 118] =
        (none, { initialFlags with Format := Format.CSV }) := by
  decide

/-- C18, amended: `SetFormat s` returns an error exactly when `s` is not empty
and is not an accepted spelling of `CSV`, `TSV`, `JSON` or `TEXT` (each letter
in either case, the long s U+017F also standing for `S`); for such a spelling,
so for every plain case variant, the format becomes the one named; on texts of
ASCII bytes the accepted spellings are the plain case variants.  For the empty
`s` the format becomes CSV, TSV or JSON when `OutFile` ends with an accepted
spelling of `.CSV`, `.TSV` or `.JSON`, which is when its extension by
`path.Ext` is one, and the flags are left as they are, with no error, for
every other `OutFile`.  In every case no field other than `Format` changes. -/
theorem setFormat_spec (f : Flags) (s : GoString) :
    ((SetFormat f s).1.isSome = true ↔
      (s ≠ [] ∧ spellsWord [67, 83, 86] s = false ∧ spellsWord [84, 83, 86] s = false ∧
        spellsWord [74, 83, 79, 78] s = false ∧ spellsWord [84, 69, 88, 84] s = false)) ∧
    (spellsWord [67, 83, 86] s = true →
      SetFormat f s = (none, { f with Format := Format.CSV })) ∧
    (spellsWord [84, 83, 86] s = true →
      SetFormat f s = (none, { f with Format := Format.TSV })) ∧
    (spellsWord [74, 83, 79, 78] s = true →
      SetFormat f s = (none, { f with Format := Format.JSON })) ∧
    (spellsWord [84, 69, 88, 84] s = true →
      SetFormat f s = (none, { f with Format := Format.TEXT })) ∧
    (s = [] → spellsWord [46, 67, 83, 86] (pathExt f.OutFile) = true →
      SetFormat f s = (none, { f with Format := Format.CSV })) ∧
    (s = [] → spellsWord [46, 84, 83, 86] (pathExt f.OutFile) = true →
      SetFormat f s = (none, { f with Format := Format.TSV })) ∧
    (s = [] → spellsWord [46, 74, 83, 79, 78] (pathExt f.OutFile) = true →
      SetFormat f s = (none, { f with Format := Format.JSON })) ∧
    (s = [] → spellsWord [46, 67, 83, 86] (pathExt f.OutFile) = false →
      spellsWord [46, 84, 83, 86] (pathExt f.OutFile) = false →
      spellsWord [46, 74, 83, 79, 78] (pathExt f.OutFile) = false →
      SetFormat f s = (none, f)) ∧
    (SetFormat f s).2 = { f with Format := (SetFormat f s).2.Format } ∧
    (s = [] → (∃ base e, f.OutFile = base ++ e ∧ spellsWord [46, 67, 83, 86] e = true) →
      SetFormat f s = (none, { f with Format := Format.CSV })) ∧
    (s = [] → (∃ base e, f.OutFile = base ++ e ∧ spellsWord [46, 84, 83, 86] e = true) →
      SetFormat f s = (none, { f with Format := Format.TSV })) ∧
    (s = [] → (∃ base e, f.OutFile = base ++ e ∧ spellsWord [46, 74, 83, 79, 78] e = true) →
      SetFormat f s = (none, { f with Format := Format.JSON })) ∧
    (s = [] →
      (∀ base e, f.OutFile = base ++ e →
        spellsWord [46, 67, 83, 86] e = false ∧ spellsWord [46, 84, 83, 86] e = false ∧
          spellsWord [46, 74, 83, 79, 78] e = false) →
      SetFormat f s = (none, f)) ∧
    (plainVariant [67, 83, 86] s = true →
      SetFormat f s = (none, { f with Format := Format.CSV })) ∧
    (plainVariant [84, 83, 86] s = true →
      SetFormat f s = (none, { f with Format := Format.TSV })) ∧
    (plainVariant [74, 83, 79, 78] s = true →
      SetFormat f s = (none, { f with Format := Format.JSON })) ∧
    (plainVariant [84, 69, 88, 84] s = true →
      SetFormat f s = (none, { f with Format := Format.TEXT })) ∧
    ((∀ c, c ∈ s → c.toNat < 128) →
      ((SetFormat f s).1.isSome = true ↔
        (s ≠ [] ∧ plainVariant [67, 83, 86] s = false ∧ plainVariant [84, 83, 86] s = false ∧
          plainVariant [74, 83, 79, 78] s = false ∧
          plainVariant [84, 69, 88, 84] s = false))) ∧
    (∀ base t : GoString, (∀ c, c ∈ t → c ≠ 46 ∧ c ≠ 47) → f.OutFile = base ++ 46 :: t →
      pathExt f.OutFile = 46 :: t) ∧
    ((∀ c, c ∈ f.OutFile → c ≠ 46) → pathExt f.OutFile = []) := by
  obtain ⟨h1, h2, h3, h4, h5, h6, h7, h8, h9, h10⟩ := SetFormat_cases f s
  have eC := spellsWord_pathExt_iff [67, 83, 86] f.OutFile (by decide)
  have eT := spellsWord_pathExt_iff [84, 83, 86] f.OutFile (by decide)
  have eJ := spellsWord_pathExt_iff [74, 83, 79, 78] f.OutFile (by decide)
  refine ⟨h1, h2, h3, h4, h5, h6, h7, h8, h9, h10, ?_, ?_, ?_, ?_, ?_, ?_, ?_, ?_, ?_,
    fun base t ht hp => by rw [hp]; exact pathExt_append_dot base t ht, ?_⟩
  rotate_right
  · intro hnd
    by_contra hne
    obtain ⟨base, t, hp, he, _⟩ := pathExt_nonempty f.OutFile _ rfl hne
    refine (hnd 46 ?_) rfl
    rw [hp, he]
    simp
  · exact fun hs he => h6 hs (eC.mpr he)
  · exact fun hs he => h7 hs (eT.mpr he)
  · exact fun hs he => h8 hs (eJ.mpr he)
  · intro hs hno
    refine h9 hs ?_ ?_ ?_
    · rw [Bool.eq_false_iff]
      intro h
      obtain ⟨base, e, hp, he⟩ := eC.mp h
      rw [(hno base e hp).1] at he
      exact absurd he (by decide)
    · rw [Bool.eq_false_iff]
      intro h
      obtain ⟨base, e, hp, he⟩ := eT.mp h
      rw [(hno base e hp).2.1] at he
      exact absurd he (by decide)
    · rw [Bool.eq_false_iff]
      intro h
      obtain ⟨base, e, hp, he⟩ := eJ.mp h
      rw [(hno base e hp).2.2] at he
      exact absurd he (by decide)
  · exact fun h => h2 (spellsWord_of_plainVariant _ _ h)
  · exact fun h => h3 (spellsWord_of_plainVariant _ _ h)
  · exact fun h => h4 (spellsWord_of_plainVariant _ _ h)
  · exact fun h => h5 (spellsWord_of_plainVariant _ _ h)
  · intro ha
    rw [h1, plainVariant_eq_false_iff _ _ (by decide) ha,
      plainVariant_eq_false_iff _ _ (by decide) ha,
      plainVariant_eq_false_iff _ _ (by decide) ha,
      plainVariant_eq_false_iff _ _ (by decide) ha,
      spellsWord_eq_false_iff _ _ (by decide), spellsWord_eq_false_iff _ _ (by decide),
      spellsWord_eq_false_iff _ _ (by decide), spellsWord_eq_false_iff _ _ (by decide)]

theorem length_lt_one_iff (s : GoString) : s.length < 1 ↔ s = [] := by
  cases s <;> simp

theorem SetFormat_isSome_iff (f : Flags) (s : GoString) :
    (SetFormat f s).1.isSome = true ↔
      (s ≠ [] ∧ stringsToUpper s ≠ [67, 83, 86] ∧ stringsToUpper s ≠ [84, 83, 86] ∧
        stringsToUpper s ≠ [74, 83, 79, 78] ∧ stringsToUpper s ≠ [84, 69, 88, 84]) := by
  have hnil := stringsToUpper_eq_nil s
  unfold SetFormat
  generalize stringsToUpper s = U at hnil ⊢
  generalize stringsToUpper (pathExt f.OutFile) = E
  by_cases h0 : U = []
  · have hs : s = [] := hnil.mp h0
    subst h0
    by_cases e1 : E = [46, 67, 83, 86]
    · simp [hs, e1]
    · by_cases e2 : E = [46, 84, 83, 86]
      · simp [hs, e2]
      · by_cases e3 : E = [46, 74, 83, 79, 78]
        · simp [hs, e3]
        · simp [hs, e1, e2, e3]
  · have hs : s ≠ [] := fun h => h0 (hnil.mpr h)
    by_cases u1 : U = [67, 83, 86]
    · simp [hs, u1]
    · by_cases u2 : U = [84, 83, 86]
      · simp [hs, u2]
      · by_cases u3 : U = [74, 83, 79, 78]
        · simp [hs, u3]
        · by_cases u4 : U = [84, 69, 88, 84]
          · simp [hs, u4]
          · simp [hs, h0, u1, u2, u3, u4]

theorem SetFormat_error_unchanged (f : Flags) (s : GoString)
    (h : (SetFormat f s).1.isSome = true) : (SetFormat f s).2 = f := by
  revert h
  unfold SetFormat
  generalize stringsToUpper s = U
  generalize stringsToUpper (pathExt f.OutFile) = E
  by_cases h0 : U = []
  · simp only [h0, if_true]
    by_cases e1 : E = [46, 67, 83, 86]
    · simp [e1]
    · by_cases e2 : E = [46, 84, 83, 86]
      · simp [e2]
      · by_cases e3 : E = [46, 74, 83, 79, 78]
        · simp [e3]
        · simp [e1, e2, e3]
  · by_cases u1 : U = [67, 83, 86]
    · simp [u1]
    · by_cases u2 : U = [84, 83, 86]
      · simp [u2]
      · by_cases u3 : U = [74, 83, 79, 78]
        · simp [u3]
        · by_cases u4 : U = [84, 69, 88, 84]
          · simp [u4]
          · simp [h0, u1, u2, u3, u4]

theorem ParseEncoding_isSome_iff (s : GoString) :
    (ParseEncoding s).2.isSome = true ↔
      (s ≠ [] ∧ stringsToUpper s ≠ [85, 84, 70, 56] ∧ stringsToUpper s ≠ [83, 74, 73, 83]) := by
  unfold ParseEncoding
  cases s with
  | nil => simp
  | cons c t =>
    generalize stringsToUpper (c :: t) = U
    by_cases u1 : U = [85, 84, 70, 56]
    · simp [u1]
    · by_cases u2 : U = [83, 74, 73, 83]
      · simp [u2]
      · simp [u1, u2]

theorem SetLineBreak_isSome_iff (f : Flags) (s : GoString) :
    (SetLineBreak f s).1.isSome = true ↔
      (s ≠ [] ∧ stringsToUpper s ≠ [67, 82, 76, 70] ∧ stringsToUpper s ≠ [76, 70] ∧
        stringsToUpper s ≠ [67, 82]) := by
  unfold SetLineBreak
  cases s with
  | nil => simp
  | cons c t =>
    generalize stringsToUpper (c :: t) = U
    by_cases u1 : U = [67, 82, 76, 70]
    · simp [u1]
    · by_cases u2 : U = [67, 82]
      · simp [u2]
      · by_cases u3 : U = [76, 70]
        · simp [u3]
        · simp [u1, u2, u3]

theorem SetLineBreak_error_unchanged (f : Flags) (s : GoString)
    (h : (SetLineBreak f s).1.isSome = true) : (SetLineBreak f s).2 = f := by
  revert h
  unfold SetLineBreak
  generalize stringsToUpper s = U
  by_cases hl : s.length < 1
  · simp [hl]
  · by_cases u1 : U = [67, 82, 76, 70]
    · simp [hl, u1]
    · by_cases u2 : U = [67, 82]
      · simp [hl, u2]
      · by_cases u3 : U = [76, 70]
        · simp [hl, u3]
        · simp [hl, u1, u2, u3]

theorem toRunes_nil : toRunes [] = [] := rfl

theorem SetDelimiter_isSome_iff (f : Flags) (s : GoString) :
    (SetDelimiter f s).1.isSome = true ↔ 1 < (toRunes s).length := by
  unfold SetDelimiter
  cases s with
  | nil => simp [toRunes_nil]
  | cons c t =>
    by_cases h : 1 < (toRunes (c :: t)).length
    · simp [h]
    · simp [h]

theorem SetDelimiter_error_unchanged (f : Flags) (s : GoString)
    (h : (SetDelimiter f s).1.isSome = true) : (SetDelimiter f s).2 = f := by
  revert h
  unfold SetDelimiter
  by_cases hl : s.length < 1
  · simp [hl]
  · by_cases h : 1 < (toRunes s).length
    · simp [hl, h]
    · simp [hl, h]

/-! ### Runes and UTF-8 -/

theorem toNat_ofNat_byte (m : Nat) (h : m < 256) : (UInt8.ofNat m).toNat = m :=
  UInt8.toNat_ofNat_of_lt h

theorem isContinuation_ofNat (m : Nat) (h1 : 128 ≤ m) (h2 : m ≤ 191) :
    isContinuation (UInt8.ofNat m) = true := by
  unfold isContinuation
  rw [toNat_ofNat_byte m (by omega)]
  simp [h1, h2]

/-- Decoding the UTF-8 form of a scalar value gives the value back, with the
width of the form. -/
theorem decodeRune_encodeRune (c : Int) (hc : isScalar c) (rest : GoString) :
    decodeRune (encodeRune c ++ rest) = (c, (encodeRune c).length) := by
  have hnn : 0 ≤ c := by
    rcases hc with h | h <;> omega
  obtain ⟨n, rfl⟩ := Int.eq_ofNat_of_zero_le hnn
  have hn : (n < 55296) ∨ (57344 ≤ n ∧ n < 1114112) := by
    rcases hc with h | h
    · left; omega
    · right; omega
  unfold encodeRune
  simp only [Int.toNat_ofNat]
  by_cases h1 : n < 128
  · simp only [h1, if_true, List.singleton_append, decodeRune, toNat_ofNat_byte n (by omega),
      List.length_singleton]
  · by_cases h2 : n < 2048
    · have hb0 := toNat_ofNat_byte (192 + n / 64) (by omega)
      have hb1 := toNat_ofNat_byte (128 + n % 64) (by omega)
      have hc1 := isContinuation_ofNat (128 + n % 64) (by omega) (by omega)
      simp only [h1, h2, if_false, if_true, List.cons_append, List.nil_append, decodeRune, hb0,
        hb1, hc1, List.length_cons, List.length_nil]
      rw [if_neg (by omega), if_pos (by omega)]
      have hv : (192 + n / 64 - 192) * 64 + (128 + n % 64 - 128) = n := by omega
      rw [hv]
    · by_cases h3 : n < 65536
      · have hb0 := toNat_ofNat_byte (224 + n / 4096) (by omega)
        have hb1 := toNat_ofNat_byte (128 + n / 64 % 64) (by omega)
        have hb2 := toNat_ofNat_byte (128 + n % 64) (by omega)
        have hc2 := isContinuation_ofNat (128 + n % 64) (by omega) (by omega)
        simp only [h1, h2, h3, if_false, if_true, List.cons_append, List.nil_append, decodeRune,
          hb0, hb1, hb2, hc2, List.length_cons, List.length_nil]
        rw [if_neg (by omega), if_neg (by omega), if_pos (by omega), if_pos]
        · have hv : ((224 + n / 4096 - 224) * 64 + (128 + n / 64 % 64 - 128)) * 64 +
              (128 + n % 64 - 128) = n := by omega
          rw [hv]
        · refine ⟨?_, ?_, trivial⟩
          · split <;> omega
          · split <;> omega
      · have hb0 := toNat_ofNat_byte (240 + n / 262144) (by omega)
        have hb1 := toNat_ofNat_byte (128 + n / 4096 % 64) (by omega)
        have hb2 := toNat_ofNat_byte (128 + n / 64 % 64) (by omega)
        have hb3 := toNat_ofNat_byte (128 + n % 64) (by omega)
        have hc2 := isContinuation_ofNat (128 + n / 64 % 64) (by omega) (by omega)
        have hc3 := isContinuation_ofNat (128 + n % 64) (by omega) (by omega)
        simp only [h1, h2, h3, if_false, if_true, List.cons_append, List.nil_append, decodeRune,
          hb0, hb1, hb2, hb3, hc2, hc3, List.length_cons, List.length_nil]
        rw [if_neg (by omega), if_neg (by omega), if_neg (by omega), if_pos (by omega), if_pos]
        · have hv : (((240 + n / 262144 - 240) * 64 + (128 + n / 4096 % 64 - 128)) * 64 +
              (128 + n / 64 % 64 - 128)) * 64 + (128 + n % 64 - 128) = n := by omega
          rw [hv]
        · refine ⟨?_, ?_, trivial, trivial⟩
          · split <;> omega
          · split <;> omega

theorem runesFrom_skip (k : Nat) (pre rest : GoString) (h : pre.length = k) :
    runesFrom k (pre ++ rest) = runesFrom 0 rest := by
  induction k generalizing pre with
  | zero =>
    have : pre = [] := List.length_eq_zero.mp h
    subst this
    rfl
  | succ k ih =>
    cases pre with
    | nil => simp at h
    | cons a pre =>
      rw [List.cons_append, runesFrom]
      exact ih pre (by simpa using h)

theorem encodeRune_eq_cons (c : Int) : ∃ b tail, encodeRune c = b :: tail := by
  unfold encodeRune
  split
  · exact ⟨_, _, rfl⟩
  · split
    · exact ⟨_, _, rfl⟩
    · split <;> exact ⟨_, _, rfl⟩

theorem runesFrom_encodeRune (c : Int) (hc : isScalar c) (rest : GoString) :
    runesFrom 0 (encodeRune c ++ rest) = c :: runesFrom 0 rest := by
  have hd := decodeRune_encodeRune c hc rest
  obtain ⟨b, tail, he⟩ := encodeRune_eq_cons c
  rw [he] at hd ⊢
  rw [List.cons_append] at hd ⊢
  rw [runesFrom, hd]
  simp only [List.length_cons, Nat.add_sub_cancel]
  rw [runesFrom_skip tail.length tail rest rfl]

/-- The conversion `[]rune(s)` of a text in UTF-8 gives its code points. -/
theorem toRunes_utf8Text (cps : List Int) (h : ∀ c, c ∈ cps → isScalar c) :
    toRunes (utf8Text cps) = cps := by
  induction cps with
  | nil => rfl
  | cons c cps ih =>
    unfold toRunes at ih ⊢
    rw [utf8Text, runesFrom_encodeRune c (h c (List.mem_cons_self _ _)),
      ih (fun d hd => h d (List.mem_cons_of_mem _ hd))]

theorem toRunes_ne_nil (s : GoString) (h : s ≠ []) : toRunes s ≠ [] := by
  cases s with
  | nil => exact absurd rfl h
  | cons c t => simp [toRunes, runesFrom]

/-- C19 as stated fails on the five bytes `s`, `j`, U+0131 (dotless i), `s`:
the text is not empty and is no plain case variant of `UTF8` or `SJIS`, yet
`SetEncoding` and `SetWriteEncoding` return no error and set the encoding to
SJIS, because `strings.ToUpper` maps the dotless i to `I`. -/
theorem setEncoding_accepts_dotless_i :
    ([115, 106, 196, 177, 115] : GoString) ≠ [] ∧
      plainVariant [85, 84, 70, 56] [115, 106, 196, 177, 115] = false ∧
      plainVariant [83, 74, 73, 83] [115, 106, 196, 177, 115] = false ∧
      SetEncoding initialFlags [115, 106, 196, 177, 115] =
        (none, { initialFlags with Encoding := Encoding.SJIS }) ∧
      SetWriteEncoding initialFlags [115, 106, 196, 177, 115] =
        (none, { initialFlags with WriteEncoding := Encoding.SJIS }) := by
  decide

/-- C19, amended: the validating setters are atomic on failure.  Whenever
`SetDelimiter`, `SetEncoding`, `SetWriteEncoding`, `SetLineBreak` or
`SetFormat` returns an error, the flags are exactly what they were; and each
returns an error exactly when its argument is outside its accepted set: more
than one rune for the delimiter (more than one code point for a text in
UTF-8); not empty and no accepted spelling of `UTF8`
or `SJIS` for the two encodings; not empty and no accepted spelling of `CRLF`,
`LF` or `CR` for the line break; not empty and no accepted spelling of `CSV`,
`TSV`, `JSON` or `TEXT` for the format.  An accepted spelling has each letter
in either case, with the long s U+017F also standing for `S` and the dotless i
U+0131 for `I`; on texts of ASCII bytes the accepted spellings are the plain
case variants. -/
theorem setters_atomic_on_failure (f : Flags) (s : GoString) :
    ((SetDelimiter f s).1.isSome = true → (SetDelimiter f s).2 = f) ∧
    ((SetEncoding f s).1.isSome = true → (SetEncoding f s).2 = f) ∧
    ((SetWriteEncoding f s).1.isSome = true → (SetWriteEncoding f s).2 = f) ∧
    ((SetLineBreak f s).1.isSome = true → (SetLineBreak f s).2 = f) ∧
    ((SetFormat f s).1.isSome = true → (SetFormat f s).2 = f) ∧
    ((SetDelimiter f s).1.isSome = true ↔ 1 < (toRunes s).length) ∧
    ((SetEncoding f s).1.isSome = true ↔
      (s ≠ [] ∧ spellsWord [85, 84, 70, 56] s = false ∧ spellsWord [83, 74, 73, 83] s = false)) ∧
    ((SetWriteEncoding f s).1.isSome = true ↔
      (s ≠ [] ∧ spellsWord [85, 84, 70, 56] s = false ∧ spellsWord [83, 74, 73, 83] s = false)) ∧
    ((SetLineBreak f s).1.isSome = true ↔
      (s ≠ [] ∧ spellsWord [67, 82, 76, 70] s = false ∧ spellsWord [76, 70] s = false ∧
        spellsWord [67, 82] s = false)) ∧
    ((SetFormat f s).1.isSome = true ↔
      (s ≠ [] ∧ spellsWord [67, 83, 86] s = false ∧ spellsWord [84, 83, 86] s = false ∧
        spellsWord [74, 83, 79, 78] s = false ∧ spellsWord [84, 69, 88, 84] s = false)) ∧
    (∀ cps : List Int, (∀ c, c ∈ cps → isScalar c) → s = utf8Text cps →
      ((SetDelimiter f s).1.isSome = true ↔ 1 < cps.length)) ∧
    ((∀ c, c ∈ s → c.toNat < 128) →
      ((SetEncoding f s).1.isSome = true ↔
        (s ≠ [] ∧ plainVariant [85, 84, 70, 56] s = false ∧
          plainVariant [83, 74, 73, 83] s = false)) ∧
      ((SetWriteEncoding f s).1.isSome = true ↔
        (s ≠ [] ∧ plainVariant [85, 84, 70, 56] s = false ∧
          plainVariant [83, 74, 73, 83] s = false)) ∧
      ((SetLineBreak f s).1.isSome = true ↔
        (s ≠ [] ∧ plainVariant [67, 82, 76, 70] s = false ∧ plainVariant [76, 70] s = false ∧
          plainVariant [67, 82] s = false)) ∧
      ((SetFormat f s).1.isSome = true ↔
        (s ≠ [] ∧ plainVariant [67, 83, 86] s = false ∧ plainVariant [84, 83, 86] s = false ∧
          plainVariant [74, 83, 79, 78] s = false ∧
          plainVariant [84, 69, 88, 84] s = false))) := by
  have hpe := ParseEncoding_isSome_iff s
  have henc : (SetEncoding f s).1.isSome = (ParseEncoding s).2.isSome ∧
      ((SetEncoding f s).1.isSome = true → (SetEncoding f s).2 = f) := by
    unfold SetEncoding
    rcases hp : ParseEncoding s with ⟨e, _ | err⟩ <;> simp
  have hwenc : (SetWriteEncoding f s).1.isSome = (ParseEncoding s).2.isSome ∧
      ((SetWriteEncoding f s).1.isSome = true → (SetWriteEncoding f s).2 = f) := by
    unfold SetWriteEncoding
    rcases hp : ParseEncoding s with ⟨e, _ | err⟩ <;> simp
  have hE : (SetEncoding f s).1.isSome = true ↔
      (s ≠ [] ∧ stringsToUpper s ≠ [85, 84, 70, 56] ∧ stringsToUpper s ≠ [83, 74, 73, 83]) := by
    rw [henc.1]
    exact hpe
  have hW : (SetWriteEncoding f s).1.isSome = true ↔
      (s ≠ [] ∧ stringsToUpper s ≠ [85, 84, 70, 56] ∧ stringsToUpper s ≠ [83, 74, 73, 83]) := by
    rw [hwenc.1]
    exact hpe
  have hL := SetLineBreak_isSome_iff f s
  have hF := SetFormat_isSome_iff f s
  refine ⟨SetDelimiter_error_unchanged f s, henc.2, hwenc.2, SetLineBreak_error_unchanged f s,
    SetFormat_error_unchanged f s, SetDelimiter_isSome_iff f s, ?_, ?_, ?_, ?_, ?_, ?_⟩
  · rw [hE, spellsWord_eq_false_iff _ _ (by decide), spellsWord_eq_false_iff _ _ (by decide)]
  · rw [hW, spellsWord_eq_false_iff _ _ (by decide), spellsWord_eq_false_iff _ _ (by decide)]
  · rw [hL, spellsWord_eq_false_iff _ _ (by decide), spellsWord_eq_false_iff _ _ (by decide),
      spellsWord_eq_false_iff _ _ (by decide)]
  · rw [hF, spellsWord_eq_false_iff _ _ (by decide), spellsWord_eq_false_iff _ _ (by decide),
      spellsWord_eq_false_iff _ _ (by decide), spellsWord_eq_false_iff _ _ (by decide)]
  · intro cps hcps hs
    rw [SetDelimiter_isSome_iff, hs, toRunes_utf8Text cps hcps]
  · intro ha
    refine ⟨?_, ?_, ?_, ?_⟩
    · rw [hE, plainVariant_eq_false_iff _ _ (by decide) ha,
        plainVariant_eq_false_iff _ _ (by decide) ha]
    · rw [hW, plainVariant_eq_false_iff _ _ (by decide) ha,
        plainVariant_eq_false_iff _ _ (by decide) ha]
    · rw [hL, plainVariant_eq_false_iff _ _ (by decide) ha,
        plainVariant_eq_false_iff _ _ (by decide) ha,
        plainVariant_eq_false_iff _ _ (by decide) ha]
    · rw [hF, plainVariant_eq_false_iff _ _ (by decide) ha,
        plainVariant_eq_false_iff _ _ (by decide) ha,
        plainVariant_eq_false_iff _ _ (by decide) ha,
        plainVariant_eq_false_iff _ _ (by decide) ha]

/-- C20: `SetDelimiter s` returns the error `delimiter must be 1 character`
exactly when the conversion `[]rune(s)` has more than one rune, and no other
error; when `s` is not empty and has one rune, the flag `Delimiter` becomes
that rune and nothing else changes; when `s` is empty the call succeeds and
leaves the flags as they are.  For a text `s` in UTF-8 the runes are its code
points: the call fails exactly when `s` has more than one code point, however
many bytes they take, and for a single code point the delimiter becomes that
code point. -/
theorem setDelimiter_spec (f : Flags) (s : GoString) :
    ((SetDelimiter f s).1 = some (GoError.plain "delimiter must be 1 character") ↔
      1 < (toRunes s).length) ∧
    ((SetDelimiter f s).1.isSome = true ↔ 1 < (toRunes s).length) ∧
    (s ≠ [] → ¬ 1 < (toRunes s).length →
      ∃ r, toRunes s = [r] ∧ SetDelimiter f s = (none, { f with Delimiter := r })) ∧
    (s = [] → SetDelimiter f s = (none, f)) ∧
    (∀ cps : List Int, (∀ c, c ∈ cps → isScalar c) → s = utf8Text cps →
      ((SetDelimiter f s).1.isSome = true ↔ 1 < cps.length) ∧
      (∀ c, cps = [c] → SetDelimiter f s = (none, { f with Delimiter := c })) ∧
      (cps = [] → SetDelimiter f s = (none, f))) := by
  have hiff := SetDelimiter_isSome_iff f s
  have hone : s ≠ [] → ¬ 1 < (toRunes s).length →
      ∃ r, toRunes s = [r] ∧ SetDelimiter f s = (none, { f with Delimiter := r }) := by
    intro hs hlen
    have hne := toRunes_ne_nil s hs
    have hl : ¬ s.length < 1 := by
      rw [length_lt_one_iff]
      exact hs
    rcases hr : toRunes s with _ | ⟨r, _ | ⟨r2, rs⟩⟩
    · exact absurd hr hne
    · refine ⟨r, rfl, ?_⟩
      unfold SetDelimiter
      simp [hl, hr]
    · rw [hr] at hlen
      simp at hlen
  have hempty : s = [] → SetDelimiter f s = (none, f) := by
    intro hs
    subst hs
    rfl
  refine ⟨?_, hiff, hone, hempty, ?_⟩
  · constructor
    · intro h
      exact hiff.mp (by rw [h]; rfl)
    · intro h
      have hs : s ≠ [] := by
        intro hs
        subst hs
        simp [toRunes_nil] at h
      have hl : ¬ s.length < 1 := by
        rw [length_lt_one_iff]
        exact hs
      unfold SetDelimiter
      simp [hl, h]
  · intro cps hcps hs
    have hr : toRunes s = cps := by
      rw [hs]
      exact toRunes_utf8Text cps hcps
    refine ⟨by rw [hiff, hr], ?_, ?_⟩
    · intro c hc
      have hs' : s ≠ [] := by
        intro h0
        rw [h0, toRunes_nil, hc] at hr
        simp at hr
      obtain ⟨r, hr', hset⟩ := hone hs' (by rw [hr, hc]; simp)
      rw [hr, hc] at hr'
      simp only [List.cons.injEq, and_true] at hr'
      rw [hset, hr']
    · intro hc
      rw [hc] at hs
      exact hempty hs

/-! ## Theorems: I/O adapters and unescaping -/

/-- C16: for every byte sequence `p`, `Discard.Write p` reports `len(p)` bytes
written and no error, and `Discard.Close` returns no error; `Output.Close`
returns no error and leaves the buffer as it is, so what was written before
`Close` is what the buffer holds after it: on a new `Output`, the bytes `p`
written are the bytes read back after `Close`. -/
theorem discard_accepts_all_and_output_close_keeps_bytes (p : GoString) (d : Discard)
    (w : Output) :
    d.Write p = ((p.length : Int), none) ∧
      d.Close = none ∧
      w.Close = (none, w) ∧
      (w.Close).2.Buffer.Bytes = w.Buffer.Bytes ∧
      (((w.Write p).2).Close).2.Buffer.buf = w.Buffer.buf ++ p ∧
      (((NewOutput.Write p).2).Close).2.Buffer.Bytes = p := by
  refine ⟨rfl, rfl, rfl, rfl, rfl, ?_⟩
  simp [NewOutput, Output.Write, Output.Close, Buffer.Write, Buffer.Bytes]

/-- C17, evaluated at its failing input, the three bytes backslash, backslash,
`n`: the scan of the specification gives backslash, `n` (the escaped backslash
becomes a backslash and the letter is copied), but `UnescapeString` gives
backslash, newline, because its replacement of backslash-`n` runs over the
whole text before the replacement of the doubled backslash. -/
theorem unescapeString_escaped_backslash_then_letter :
    UnescapeString [92, 92, 110] = [92, 10] ∧
      unescapeScan [92, 92, 110] = [92, 110] ∧
      UnescapeString [92, 92, 110] ≠ unescapeScan [92, 92, 110] := by
  decide

/-! ## Examples: flag setters -/

/-- The setters on sample arguments: a multi-byte single character is a valid
delimiter, two characters are not; spellings in mixed case are accepted. -/
theorem flag_setter_examples :
    SetDelimiter initialFlags [227, 129, 130] =
        (none, { initialFlags with Delimiter := 12354 }) ∧
      (SetDelimiter initialFlags [44, 44]).1 =
        some (GoError.plain "delimiter must be 1 character") ∧
      SetFormat initialFlags [74, 115, 79, 110] =
        (none, { initialFlags with Format := Format.JSON }) ∧
      SetFormat { initialFlags with OutFile := [97, 46, 84, 115, 118] } [] =
        (none, { initialFlags with OutFile := [97, 46, 84, 115, 118], Format := Format.TSV }) ∧
      (SetFormat initialFlags [120, 109, 108]).1 =
        some (GoError.plain "format must be one of csv|tsv|json|text") ∧
      SetEncoding initialFlags [115, 106, 105, 115] =
        (none, { initialFlags with Encoding := Encoding.SJIS }) ∧
      SetLineBreak initialFlags [99, 114, 108, 102] =
        (none, { initialFlags with LineBreak := [13, 10] }) := by
  decide

end Csvq
